import Mathlib

/-!
Verification of the MonitoRSS Refresh Scheduling & Disablement Coordination
Engine (`ScheduleHandlerService`), shallowly embedded from
`src/services/backend-api/src/features/schedule-handler/schedule-handler.service.ts`.

The Mongo feed store is modelled as a `List UserFeed`; bulk `updateMany` is a
guarded map, `updateOne` updates the first matching document, and targeted
positional `$set` updates modify one connection entry in place.  Message-bus
publishes are modelled as returned message values.
-/

namespace MonitoRSS

/-- Health status of a feed.  Modelled from the spec: the spec gives the enum
as Ok, Failed, and possibly more; only these two are used by the engine. -/
inductive UserFeedHealthStatus where
  | Ok
  | Failed
deriving DecidableEq, Repr

/-- Modelled from the spec: disablement codes are sticky string markers; the
spec names the fetch-failure code explicitly, other codes come from the fixed
reject-code mapping tables (not under src), kept abstract as strings. -/
abbrev DisabledCode := String

/-- The disablement code written by the fetch-failure handler
(`UserFeedDisabledCode.FailedRequests` in the source; the spec calls it
"fetch failures"). -/
def UserFeedDisabledCode.FailedRequests : DisabledCode := "fetch failures"

structure FeedFilters where
  expression : Option String
deriving DecidableEq, Repr

structure SplitOptions where
  isEnabled : Option Bool
deriving DecidableEq, Repr

structure DiscordChannelDetailsChannel where
  id : String
  type : Option String
  guildId : String
deriving DecidableEq, Repr

structure DiscordFormatter where
  formatTables : Option Bool
  stripImages : Option Bool
deriving DecidableEq, Repr

structure DiscordChannelConnectionDetails where
  channel : DiscordChannelDetailsChannel
  content : Option String
  embeds : List String
  forumThreadTitle : Option String
  forumThreadTags : Option String
  formatter : Option DiscordFormatter
  placeholderLimits : Option String
  enablePlaceholderFallback : Option Bool
deriving DecidableEq, Repr

structure DiscordWebhookDetailsWebhook where
  id : String
  token : String
  name : Option String
  iconUrl : Option String
  guildId : String
deriving DecidableEq, Repr

structure DiscordWebhookConnectionDetails where
  webhook : DiscordWebhookDetailsWebhook
  content : Option String
  embeds : List String
  formatter : Option DiscordFormatter
  placeholderLimits : Option String
  enablePlaceholderFallback : Option Bool
deriving DecidableEq, Repr

structure DiscordChannelConnection where
  id : String
  disabledCode : Option DisabledCode
  filters : Option FeedFilters
  details : DiscordChannelConnectionDetails
  mentions : Option String
  splitOptions : Option SplitOptions
deriving DecidableEq, Repr

structure DiscordWebhookConnection where
  id : String
  disabledCode : Option DisabledCode
  filters : Option FeedFilters
  details : DiscordWebhookConnectionDetails
  mentions : Option String
  splitOptions : Option SplitOptions
deriving DecidableEq, Repr

structure UserFeedConnections where
  discordChannels : List DiscordChannelConnection
  discordWebhooks : List DiscordWebhookConnection
deriving DecidableEq, Repr

structure UserFeedUser where
  discordUserId : String
deriving DecidableEq, Repr

structure UserFeedFormatOptions where
  dateFormat : Option String
  dateTimezone : Option String
deriving DecidableEq, Repr

structure UserFeedDateCheckOptions where
  oldArticleDateDiffMsThreshold : Option Nat
deriving DecidableEq, Repr

/-- A feed document of the feed store (`UserFeed` entity; `id` stands for the
Mongo `_id`). -/
structure UserFeed where
  id : String
  url : String
  refreshRateSeconds : Nat
  user : UserFeedUser
  disabledCode : Option DisabledCode
  healthStatus : UserFeedHealthStatus
  passingComparisons : Option (List String)
  blockingComparisons : Option (List String)
  formatOptions : Option UserFeedFormatOptions
  dateCheckOptions : Option UserFeedDateCheckOptions
  connections : UserFeedConnections
deriving DecidableEq, Repr

/-- The per-account benefit record returned by
`supportersService.getBenefitsOfAllDiscordUsers()`. -/
structure UserBenefits where
  discordUserId : String
  refreshRateSeconds : Nat
  maxDailyArticles : Nat
  maxUserFeeds : Nat
  isSupporter : Bool
deriving DecidableEq, Repr

/-! ## Store primitives (Mongo semantics on a list of documents) -/

/-- `updateMany(filter, update)`: apply `u` to every document matching `p`. -/
def updateMany (p : UserFeed → Bool) (u : UserFeed → UserFeed)
    (store : List UserFeed) : List UserFeed :=
  store.map fun f => if p f then u f else f

/-- Number of documents an `updateMany(filter, ...)` call matches. -/
def matchedCount (p : UserFeed → Bool) (store : List UserFeed) : Nat :=
  store.countP p

/-- `updateOne(filter, update)`: apply `u` to the first document matching `p`. -/
def updateFirst (p : UserFeed → Bool) (u : UserFeed → UserFeed) :
    List UserFeed → List UserFeed
  | [] => []
  | f :: fs => if p f then u f :: fs else f :: updateFirst p u fs

/-- `findById`: the first document with the given `_id`. -/
def findById (store : List UserFeed) (feedId : String) : Option UserFeed :=
  store.find? fun f => f.id = feedId

/-- Modify the element at index `i` of a list, if present. -/
def modifyAt (i : Nat) (g : α → α) : List α → List α
  | [] => []
  | x :: xs =>
    match i with
    | 0 => g x :: xs
    | i + 1 => x :: modifyAt i g xs

/-! ## Disablement Coordinator handlers -/

/-- `handleUrlRequestFailureEvent`: bulk-disable every feed sharing the failed
URL whose disablement code is absent. -/
def handleUrlRequestFailureEvent (url : String) (store : List UserFeed) :
    List UserFeed :=
  updateMany
    (fun f => decide (f.url = url ∧ f.disabledCode = none))
    (fun f =>
      { f with
        disabledCode := some UserFeedDisabledCode.FailedRequests
        healthStatus := UserFeedHealthStatus.Failed })
    store

/-- `handleFeedRejectedDisableFeed`: look up the rejected feed; if absent, warn
(second component `true`) and no-op; otherwise set its disablement code via the
reject-code mapping, guarded by the code being absent. -/
def handleFeedRejectedDisableFeed
    (getUserFeedDisableCodeByFeedRejectCode : String → DisabledCode)
    (feedId rejectedCode : String) (store : List UserFeed) :
    List UserFeed × Bool :=
  match findById store feedId with
  | none => (store, true)
  | some _ =>
    let disabledCode := getUserFeedDisableCodeByFeedRejectCode rejectedCode
    (updateFirst
      (fun f => decide (f.id = feedId ∧ f.disabledCode = none))
      (fun f => { f with disabledCode := some disabledCode })
      store, false)

/-- Mongo truth of `connections.discordChannels.<i>.disabledCode: {$exists: false}`
on a document: the path is absent when the entry exists with no code, or when
the index is out of range. -/
def channelDisabledCodeAbsentAt (f : UserFeed) (i : Nat) : Bool :=
  match f.connections.discordChannels[i]? with
  | some c => c.disabledCode.isNone
  | none => true

def webhookDisabledCodeAbsentAt (f : UserFeed) (i : Nat) : Bool :=
  match f.connections.discordWebhooks[i]? with
  | some c => c.disabledCode.isNone
  | none => true

/-- `$set` of `connections.discordChannels.<i>.disabledCode`. -/
def setChannelDisabledCodeAt (i : Nat) (code : DisabledCode) (f : UserFeed) :
    UserFeed :=
  { f with
    connections :=
      { f.connections with
        discordChannels :=
          modifyAt i (fun c => { c with disabledCode := some code })
            f.connections.discordChannels } }

def setWebhookDisabledCodeAt (i : Nat) (code : DisabledCode) (f : UserFeed) :
    UserFeed :=
  { f with
    connections :=
      { f.connections with
        discordWebhooks :=
          modifyAt i (fun c => { c with disabledCode := some code })
            f.connections.discordWebhooks } }

/-- One `updateOne` of the destination-rejection loop, for a channel entry. -/
def disableChannelConnectionAt (feedId : String) (i : Nat)
    (code : DisabledCode) (store : List UserFeed) : List UserFeed :=
  updateFirst
    (fun f => decide (f.id = feedId) && channelDisabledCodeAbsentAt f i)
    (setChannelDisabledCodeAt i code)
    store

def disableWebhookConnectionAt (feedId : String) (i : Nat)
    (code : DisabledCode) (store : List UserFeed) : List UserFeed :=
  updateFirst
    (fun f => decide (f.id = feedId) && webhookDisabledCodeAbsentAt f i)
    (setWebhookDisabledCodeAt i code)
    store

/-- The indices scanned by the destination-rejection loop: every position of
the found feed's channel list whose connection id equals the medium id. -/
def channelIdxsMatching (conns : List DiscordChannelConnection)
    (mediumId : String) : List Nat :=
  (List.range conns.length).filter fun i =>
    match conns[i]? with
    | some c => decide (c.id = mediumId)
    | none => false

def webhookIdxsMatching (conns : List DiscordWebhookConnection)
    (mediumId : String) : List Nat :=
  (List.range conns.length).filter fun i =>
    match conns[i]? with
    | some c => decide (c.id = mediumId)
    | none => false

/-- `handleRejectedArticleDisableConnection`: look up the feed (warn-and-no-op
if absent), then for every destination across both kinds whose identity equals
the medium id, issue a targeted guarded update of that destination's
disablement code — channel entries first, then webhook entries, as
`Object.entries(connections)` yields them. -/
def handleRejectedArticleDisableConnection
    (getConnectionDisableCodeByArticleRejectCode : String → DisabledCode)
    (feedId mediumId rejectedCode : String) (store : List UserFeed) :
    List UserFeed × Bool :=
  match findById store feedId with
  | none => (store, true)
  | some foundFeed =>
    let disableCode := getConnectionDisableCodeByArticleRejectCode rejectedCode
    let chanIdxs :=
      channelIdxsMatching foundFeed.connections.discordChannels mediumId
    let hookIdxs :=
      webhookIdxsMatching foundFeed.connections.discordWebhooks mediumId
    let store1 := chanIdxs.foldl
      (fun st i => disableChannelConnectionAt feedId i disableCode st) store
    (hookIdxs.foldl
      (fun st i => disableWebhookConnectionAt feedId i disableCode st) store1,
     false)

/-! ## Message-bus publishes -/

/-- Modelled from the spec: the queue name constants
(`MessageBrokerQueue`, not under src) — only their distinctness matters. -/
def MessageBrokerQueue.UrlFetch : String := "url.fetch"

def MessageBrokerQueue.UrlFetchBatch : String := "url.fetch.batch"

def MessageBrokerQueue.FeedDeliverArticles : String := "feed.deliver-articles"

/-- A message published on the bus: queue, JSON payload, per-message
expiration in milliseconds. -/
structure PublishedMessage (α : Type) where
  queue : String
  payload : α
  expiration : Nat
deriving DecidableEq, Repr

structure UrlFetchEventData where
  url : String
  rateSeconds : Nat
deriving DecidableEq, Repr

structure UrlFetchEventPayload where
  data : UrlFetchEventData
deriving DecidableEq, Repr

/-- `emitUrlRequestEvent`: publish `{ data }` (the whole `{url, rateSeconds}`
argument) to the url-fetch queue with expiration `rateSeconds * 1000`. -/
def emitUrlRequestEvent (data : UrlFetchEventData) :
    PublishedMessage UrlFetchEventPayload :=
  { queue := MessageBrokerQueue.UrlFetch
    payload := { data := data }
    expiration := data.rateSeconds * 1000 }

structure UrlFetchBatchEventPayload where
  rateSeconds : Nat
  timestamp : Nat
  data : List UrlFetchEventData
deriving DecidableEq, Repr

/-- `emitUrlRequestBatchEvent` (`now` stands for `Date.now()`). -/
def emitUrlRequestBatchEvent (now : Nat) (rateSeconds : Nat)
    (data : List UrlFetchEventData) :
    PublishedMessage UrlFetchBatchEventPayload :=
  { queue := MessageBrokerQueue.UrlFetchBatch
    payload := { rateSeconds := rateSeconds, timestamp := now, data := data }
    expiration := rateSeconds * 1000 }

/-- Modelled from the spec: `castDiscordContentForMedium` (common/utils, not
under src) casts content into the medium-neutral shape; content is opaque to
this engine so the cast carries it through. -/
def castDiscordContentForMedium (content : Option String) : Option String :=
  content

/-- Modelled from the spec: `castDiscordEmbedsForMedium`, as above. -/
def castDiscordEmbedsForMedium (embeds : List String) : List String :=
  embeds

inductive DiscordMediumDetails where
  | channel
      (guildId : String)
      (channel : DiscordChannelDetailsChannel)
      (content : Option String)
      (embeds : List String)
      (forumThreadTitle : Option String)
      (forumThreadTags : Option String)
      (mentions : Option String)
      (formatter : DiscordFormatter)
      (splitOptions : Option SplitOptions)
      (placeholderLimits : Option String)
      (enablePlaceholderFallback : Option Bool)
  | webhook
      (guildId : String)
      (webhook : DiscordWebhookDetailsWebhook)
      (content : Option String)
      (embeds : List String)
      (formatter : DiscordFormatter)
      (splitOptions : Option SplitOptions)
      (mentions : Option String)
      (placeholderLimits : Option String)
      (enablePlaceholderFallback : Option Bool)
deriving DecidableEq, Repr

structure DiscordMediumEvent where
  id : String
  key : String
  filters : Option FeedFilters
  details : DiscordMediumDetails
deriving DecidableEq, Repr

/-- `filters: con.filters?.expression ? {expression: ...} : null` — the medium
filters are included only when a filters object with an expression is present
(an expression object is always truthy in JS). -/
def mediumFilters (filters : Option FeedFilters) : Option FeedFilters :=
  match filters with
  | some fl =>
    match fl.expression with
    | some e => some { expression := some e }
    | none => none
  | none => none

/-- `splitOptions: con.splitOptions?.isEnabled ? con.splitOptions : undefined`. -/
def mediumSplitOptions (splitOptions : Option SplitOptions) :
    Option SplitOptions :=
  match splitOptions with
  | some so => if so.isEnabled = some true then some so else none
  | none => none

/-- `formatter: {formatTables: con.details.formatter?.formatTables, ...}`. -/
def mediumFormatter (formatter : Option DiscordFormatter) : DiscordFormatter :=
  { formatTables := formatter.bind (·.formatTables)
    stripImages := formatter.bind (·.stripImages) }

def channelMedium (con : DiscordChannelConnection) : DiscordMediumEvent :=
  { id := con.id
    key := "discord"
    filters := mediumFilters con.filters
    details :=
      DiscordMediumDetails.channel
        con.details.channel.guildId
        { id := con.details.channel.id
          type := con.details.channel.type
          guildId := con.details.channel.guildId }
        (castDiscordContentForMedium con.details.content)
        (castDiscordEmbedsForMedium con.details.embeds)
        con.details.forumThreadTitle
        con.details.forumThreadTags
        con.mentions
        (mediumFormatter con.details.formatter)
        (mediumSplitOptions con.splitOptions)
        con.details.placeholderLimits
        con.details.enablePlaceholderFallback }

def webhookMedium (con : DiscordWebhookConnection) : DiscordMediumEvent :=
  { id := con.id
    key := "discord"
    filters := mediumFilters con.filters
    details :=
      DiscordMediumDetails.webhook
        con.details.webhook.guildId
        { id := con.details.webhook.id
          token := con.details.webhook.token
          name := con.details.webhook.name
          iconUrl := con.details.webhook.iconUrl
          guildId := con.details.webhook.guildId }
        (castDiscordContentForMedium con.details.content)
        (castDiscordEmbedsForMedium con.details.embeds)
        (mediumFormatter con.details.formatter)
        (mediumSplitOptions con.splitOptions)
        con.mentions
        con.details.placeholderLimits
        con.details.enablePlaceholderFallback }

structure DeliveryEventFeed where
  id : String
  url : String
  passingComparisons : List String
  blockingComparisons : List String
  formatOptions : UserFeedFormatOptions
  dateChecks : Option UserFeedDateCheckOptions
deriving DecidableEq, Repr

structure DeliveryEventData where
  articleDayLimit : Nat
  feed : DeliveryEventFeed
  mediums : List DiscordMediumEvent
deriving DecidableEq, Repr

structure PublishFeedDeliveryArticlesData where
  timestamp : Nat
  data : DeliveryEventData
deriving DecidableEq, Repr

/-- `emitDeliverFeedArticlesEvent`: project the enabled channel connections
then the enabled webhook connections into mediums
(`.filter((c) => !c.disabledCode)`; disablement codes are non-empty enum
strings, so JS truthiness of the code coincides with its presence) and publish
exactly one deliver-articles event, with a one-hour expiration.  The returned
list collects the publishes performed by the call. -/
def emitDeliverFeedArticlesEvent (now : Nat) (userFeed : UserFeed)
    (maxDailyArticles : Nat) :
    List (PublishedMessage PublishFeedDeliveryArticlesData) :=
  let discordChannelMediums :=
    (userFeed.connections.discordChannels.filter
      (fun c => c.disabledCode.isNone)).map channelMedium
  let discordWebhookMediums :=
    (userFeed.connections.discordWebhooks.filter
      (fun c => c.disabledCode.isNone)).map webhookMedium
  let allMediums := discordChannelMediums ++ discordWebhookMediums
  [{ queue := MessageBrokerQueue.FeedDeliverArticles
     payload :=
       { timestamp := now
         data :=
           { articleDayLimit := maxDailyArticles
             feed :=
               { id := userFeed.id
                 url := userFeed.url
                 passingComparisons := userFeed.passingComparisons.getD []
                 blockingComparisons := userFeed.blockingComparisons.getD []
                 formatOptions :=
                   { dateFormat :=
                       userFeed.formatOptions.bind (·.dateFormat)
                     dateTimezone :=
                       userFeed.formatOptions.bind (·.dateTimezone) }
                 dateChecks := userFeed.dateCheckOptions }
             mediums := allMediums } }
     expiration := 1000 * 60 * 60 }]

/-! ## Refresh Rate Synchronizer -/

/-- The grouping step of `syncRefreshRates`: insert one supporter's user id
into the bucket of its entitled rate, keeping JS `Map` insertion order. -/
def addToRateGroups (groups : List (Nat × List String)) (rate : Nat)
    (uid : String) : List (Nat × List String) :=
  match groups with
  | [] => [(rate, [uid])]
  | (r, uids) :: rest =>
    if r = rate then (r, uids ++ [uid]) :: rest
    else (r, uids) :: addToRateGroups rest rate uid

/-- `supportersByRefreshRates`: the valid supporters partitioned by entitled
refresh rate, in first-seen order. -/
def supportersByRefreshRates (validSupporters : List UserBenefits) :
    List (Nat × List String) :=
  validSupporters.foldl
    (fun gs s => addToRateGroups gs s.refreshRateSeconds s.discordUserId) []

/-- An `updateMany` together with the number of documents it matched. -/
def updateManyCount (p : UserFeed → Bool) (u : UserFeed → UserFeed)
    (store : List UserFeed) : List UserFeed × Nat :=
  (updateMany p u store, matchedCount p store)

/-- The filter of one per-bucket bulk update of `syncRefreshRates`:
`{"user.discordUserId": {$in: discordUserIds}, refreshRateSeconds: {$ne: rate}}`. -/
def rateGroupPred (g : Nat × List String) (f : UserFeed) : Bool :=
  decide (f.user.discordUserId ∈ g.2) && decide (f.refreshRateSeconds ≠ g.1)

/-- The update of one per-bucket bulk update: `$set refreshRateSeconds`. -/
def rateGroupSet (g : Nat × List String) (f : UserFeed) : UserFeed :=
  { f with refreshRateSeconds := g.1 }

/-- The filter of the closing bulk update of `syncRefreshRates`:
`{"user.discordUserId": {$nin: special}, refreshRateSeconds: {$ne: default}}`. -/
def defaultRatePred (specialDiscordUserIds : List String) (d : Nat)
    (f : UserFeed) : Bool :=
  !decide (f.user.discordUserId ∈ specialDiscordUserIds) &&
    decide (f.refreshRateSeconds ≠ d)

/-- `syncRefreshRates`, returning the new store and the total number of
documents matched by its bulk updates.  Per supporter rate bucket, every feed
of those accounts whose rate differs is set to the bucket rate; every feed of
the remaining accounts whose rate differs from the process-wide default is
reset to the default. -/
def syncRefreshRatesRun (benefits : List UserBenefits)
    (defaultRefreshRateSeconds : Nat) (store : List UserFeed) :
    List UserFeed × Nat :=
  let validSupporters := benefits.filter (·.isSupporter)
  let refreshRates := supportersByRefreshRates validSupporters
  let step := refreshRates.foldl
    (fun (acc : List UserFeed × Nat) g =>
      let r := updateManyCount (rateGroupPred g) (rateGroupSet g) acc.1
      (r.1, acc.2 + r.2))
    (store, 0)
  let specialDiscordUserIds := (refreshRates.map (·.2)).flatten
  let final := updateManyCount
    (defaultRatePred specialDiscordUserIds defaultRefreshRateSeconds)
    (fun f => { f with refreshRateSeconds := defaultRefreshRateSeconds })
    step.1
  (final.1, step.2 + final.2)

def syncRefreshRates (benefits : List UserBenefits)
    (defaultRefreshRateSeconds : Nat) (store : List UserFeed) :
    List UserFeed :=
  (syncRefreshRatesRun benefits defaultRefreshRateSeconds store).1

def syncRefreshRatesWrites (benefits : List UserBenefits)
    (defaultRefreshRateSeconds : Nat) (store : List UserFeed) : Nat :=
  (syncRefreshRatesRun benefits defaultRefreshRateSeconds store).2

/-! ## Fetch Dispatcher -/

/-- The candidate predicate of `getFeedsQuery(rate)`: rate matches, feed-level
disablement code absent, and some destination kind is non-empty with an entry
whose disablement code is absent. -/
def getFeedsQueryPred (rate : Nat) (f : UserFeed) : Bool :=
  (decide (f.refreshRateSeconds = rate) && f.disabledCode.isNone) &&
  ((!f.connections.discordChannels.isEmpty &&
      f.connections.discordChannels.any (fun c => c.disabledCode.isNone)) ||
   (!f.connections.discordWebhooks.isEmpty &&
      f.connections.discordWebhooks.any (fun c => c.disabledCode.isNone)))

/-- `getFeedsQuery(rate)` as the list of matching documents. -/
def getFeedsQuery (rate : Nat) (store : List UserFeed) : List UserFeed :=
  store.filter (getFeedsQueryPred rate)

/-- `getUrlsMatchingRefreshRate`: `distinct("url")` over the candidate query. -/
def getUrlsMatchingRefreshRate (rate : Nat) (store : List UserFeed) :
    List String :=
  ((getFeedsQuery rate store).map (·.url)).dedup

/-- The take/drop loop of lodash `chunk`, with enough fuel to consume the
whole list (each step consumes at least one element when `n ≠ 0`). -/
def chunkListFuel (n : Nat) : Nat → List α → List (List α)
  | _, [] => []
  | 0, _ :: _ => []
  | fuel + 1, x :: xs => ((x :: xs).take n) :: chunkListFuel n fuel ((x :: xs).drop n)

/-- lodash `chunk(l, n)`. -/
def chunkList (n : Nat) (l : List α) : List (List α) :=
  if n = 0 then [] else chunkListFuel n l.length l

/-- The JS `x || d` fallback on the `Map.get` result: `undefined` and `0` are
both falsy. -/
def orDefault (x : Option Nat) (d : Nat) : Nat :=
  match x with
  | some v => if v = 0 then d else v
  | none => d

/-- JS `Map` built from entries, looked up: the value of the last entry with
the given key. -/
def mapGet (entries : List (String × Nat)) (k : String) : Option Nat :=
  entries.foldl (fun acc p => if p.1 = k then some p.2 else acc) none

/-- The observable behaviour of one `handleRefreshRate` dispatch pass: the
store after the initial synchronize, the URL batches handed to `urlsHandler`,
and the `(feed, maxDailyArticles)` invocations of `feedHandler` in cursor
order. -/
structure DispatchTrace where
  store : List UserFeed
  urlBatches : List (List String)
  feedCalls : List (UserFeed × Nat)
deriving DecidableEq, Repr

/-- `handleRefreshRate(refreshRateSeconds, {urlsHandler, feedHandler})`:
synchronize rates, build the per-account daily-limit map from the benefit
list, emit the matching URLs in chunks of 25, then stream the candidate feeds,
resolving each account's daily limit with the system default as fallback. -/
def handleRefreshRate (benefits : List UserBenefits)
    (defaultRefreshRateSeconds maxDailyArticlesDefault : Nat)
    (refreshRateSeconds : Nat) (store : List UserFeed) : DispatchTrace :=
  let store1 := syncRefreshRates benefits defaultRefreshRateSeconds store
  let dailyLimitsByDiscordUserId :=
    benefits.map fun b => (b.discordUserId, b.maxDailyArticles)
  let urls := getUrlsMatchingRefreshRate refreshRateSeconds store1
  let urlBatches := chunkList 25 urls
  let feedCalls := (getFeedsQuery refreshRateSeconds store1).map fun f =>
    (f, orDefault (mapGet dailyLimitsByDiscordUserId f.user.discordUserId)
      maxDailyArticlesDefault)
  { store := store1, urlBatches := urlBatches, feedCalls := feedCalls }

/-! ## Outcome events -/

/-- The three asynchronous outcome events consumed by the Disablement
Coordinator. -/
inductive OutcomeEvent where
  | urlFailure (url : String)
  | feedRejected (feedId rejectedCode : String)
  | articleRejected (feedId mediumId rejectedCode : String)
deriving DecidableEq, Repr

/-- The store transition performed by the subscriber of one outcome event
(the reject-code mapping tables, which live outside src, are parameters). -/
def applyOutcomeEvent (mapFeedRejectCode mapArticleRejectCode : String → DisabledCode)
    (e : OutcomeEvent) (store : List UserFeed) : List UserFeed :=
  match e with
  | .urlFailure url => handleUrlRequestFailureEvent url store
  | .feedRejected feedId code =>
    (handleFeedRejectedDisableFeed mapFeedRejectCode feedId code store).1
  | .articleRejected feedId mediumId code =>
    (handleRejectedArticleDisableConnection mapArticleRejectCode
      feedId mediumId code store).1

/-- Replay of a sequence of outcome events against the store. -/
def replayOutcomeEvents (mapFeedRejectCode mapArticleRejectCode : String → DisabledCode)
    (events : List OutcomeEvent) (store : List UserFeed) : List UserFeed :=
  events.foldl
    (fun st e => applyOutcomeEvent mapFeedRejectCode mapArticleRejectCode e st)
    store

/-- The refresh rate the spec says a feed of the given account must end at
after one synchronize pass: the account's entitled rate when it has an active
qualifying benefit, the process-wide default otherwise.  Defined from the
spec's words, for comparison with `syncRefreshRates`. -/
def entitledRefreshRate (benefits : List UserBenefits) (defaultRate : Nat)
    (discordUserId : String) : Nat :=
  match (benefits.filter (·.isSupporter)).find?
      (fun b => decide (b.discordUserId = discordUserId)) with
  | some b => b.refreshRateSeconds
  | none => defaultRate

/-! ## Concrete sample data for witnesses -/

def mkChannelConnection (cid : String) (code : Option DisabledCode) :
    DiscordChannelConnection :=
  { id := cid
    disabledCode := code
    filters := none
    details :=
      { channel := { id := "chan1", type := none, guildId := "guild1" }
        content := none
        embeds := []
        forumThreadTitle := none
        forumThreadTags := none
        formatter := none
        placeholderLimits := none
        enablePlaceholderFallback := none }
    mentions := none
    splitOptions := none }

def mkWebhookConnection (cid : String) (code : Option DisabledCode) :
    DiscordWebhookConnection :=
  { id := cid
    disabledCode := code
    filters := none
    details :=
      { webhook :=
          { id := "wh1", token := "tok", name := none, iconUrl := none
            guildId := "guild1" }
        content := none
        embeds := []
        formatter := none
        placeholderLimits := none
        enablePlaceholderFallback := none }
    mentions := none
    splitOptions := none }

def mkFeed (fid furl : String) (rate : Nat) (uid : String)
    (code : Option DisabledCode) (chans : List DiscordChannelConnection)
    (hooks : List DiscordWebhookConnection) : UserFeed :=
  { id := fid
    url := furl
    refreshRateSeconds := rate
    user := { discordUserId := uid }
    disabledCode := code
    healthStatus := UserFeedHealthStatus.Ok
    passingComparisons := none
    blockingComparisons := none
    formatOptions := none
    dateCheckOptions := none
    connections := { discordChannels := chans, discordWebhooks := hooks } }

/-! ## Theorems -/

/-- C9 counterexample: the claim says the published payload is
`{data: {url: u}}`, a function of the URL alone; but the code publishes the
whole `{url, rateSeconds}` argument as `data`, so two calls with the same URL
and different rates publish different payloads. -/
theorem emitUrlRequestEvent_payload_claim_cex :
    (emitUrlRequestEvent { url := "http://x", rateSeconds := 60 }).payload.data.rateSeconds
      = 60 ∧
    (emitUrlRequestEvent { url := "http://x", rateSeconds := 60 }).payload ≠
      (emitUrlRequestEvent { url := "http://x", rateSeconds := 120 }).payload := by
  refine ⟨rfl, ?_⟩
  intro h
  have : (60 : Nat) = 120 := congrArg (fun p => p.data.rateSeconds) h
  omega

/-- C9 amended: the single fetch-request emitter publishes payload
`{data: {url: u, rateSeconds: r}}` with expiration `r × 1000` ms. -/
theorem emitUrlRequestEvent_payload_spec (u : String) (r : Nat) :
    (emitUrlRequestEvent { url := u, rateSeconds := r }).payload =
      { data := { url := u, rateSeconds := r } } ∧
    (emitUrlRequestEvent { url := u, rateSeconds := r }).expiration = r * 1000 ∧
    (emitUrlRequestEvent { url := u, rateSeconds := r }).queue =
      MessageBrokerQueue.UrlFetch :=
  ⟨rfl, rfl, rfl⟩

/-- C10: the delivery-event builder publishes exactly one deliver-articles
event per feed — even when every destination is disabled, in which case the
mediums list is empty — and the mediums are exactly the enabled channel
destinations followed by the enabled webhook destinations, each in stored
order. -/
theorem deliverEvent_single_event_enabled_mediums (now : Nat)
    (userFeed : UserFeed) (maxDailyArticles : Nat) :
    (emitDeliverFeedArticlesEvent now userFeed maxDailyArticles).length = 1 ∧
    (emitDeliverFeedArticlesEvent now userFeed maxDailyArticles).map
        (fun msg => msg.payload.data.mediums) =
      [((userFeed.connections.discordChannels.filter
          (fun c => c.disabledCode.isNone)).map channelMedium) ++
       ((userFeed.connections.discordWebhooks.filter
          (fun c => c.disabledCode.isNone)).map webhookMedium)] ∧
    (emitDeliverFeedArticlesEvent now userFeed maxDailyArticles).map
        (fun msg => msg.payload.data.mediums.map (·.id)) =
      [((userFeed.connections.discordChannels.filter
          (fun c => c.disabledCode.isNone)).map (·.id)) ++
       ((userFeed.connections.discordWebhooks.filter
          (fun c => c.disabledCode.isNone)).map (·.id))] := by
  refine ⟨rfl, rfl, ?_⟩
  simp only [emitDeliverFeedArticlesEvent, List.map_cons, List.map_nil,
    List.map_append, List.map_map]
  rfl

/-- C5: a fetch-failure event for URL `u` sets, in one bulk update, the
"fetch failures" disablement code and the failed health status on exactly the
feeds whose URL is `u` and whose disablement code is absent; every other feed
is left unchanged. -/
theorem urlFailure_bulk_disables_exactly_matching (u : String)
    (store : List UserFeed) :
    (handleUrlRequestFailureEvent u store).length = store.length ∧
    ∀ (i : Nat) (f : UserFeed), store[i]? = some f →
      (f.url = u ∧ f.disabledCode = none →
        (handleUrlRequestFailureEvent u store)[i]? =
          some { f with
                 disabledCode := some UserFeedDisabledCode.FailedRequests
                 healthStatus := UserFeedHealthStatus.Failed }) ∧
      (¬(f.url = u ∧ f.disabledCode = none) →
        (handleUrlRequestFailureEvent u store)[i]? = some f) := by
  refine ⟨by simp [handleUrlRequestFailureEvent, updateMany], ?_⟩
  intro i f hf
  constructor
  · intro hc
    simp [handleUrlRequestFailureEvent, updateMany, List.getElem?_map, hf,
      hc.1, hc.2]
  · intro hc
    simp only [handleUrlRequestFailureEvent, updateMany, List.getElem?_map, hf,
      Option.map_some']
    rw [if_neg]
    simpa using hc

/-- C5 witness: two enabled feeds sharing the failed URL are both disabled;
the concrete instance evaluates the handler at index 0. -/
theorem urlFailure_bulk_disables_exactly_matching_witness :
    (handleUrlRequestFailureEvent "http://x"
        [mkFeed "fa" "http://x" 60 "u1" none [] [],
         mkFeed "fb" "http://y" 60 "u1" none [] []])[0]? =
      some { mkFeed "fa" "http://x" 60 "u1" none [] [] with
             disabledCode := some UserFeedDisabledCode.FailedRequests
             healthStatus := UserFeedHealthStatus.Failed } :=
  ((urlFailure_bulk_disables_exactly_matching "http://x"
      [mkFeed "fa" "http://x" 60 "u1" none [] [],
       mkFeed "fb" "http://y" 60 "u1" none [] []]).2 0
    (mkFeed "fa" "http://x" 60 "u1" none [] []) rfl).1 ⟨rfl, rfl⟩

/-- C7: a feed-rejection event whose feed id matches no stored feed logs a
warning (second component), performs no store mutation, and returns normally. -/
theorem feedRejected_missing_feed_noop (mapCode : String → DisabledCode)
    (feedId rejectedCode : String) (store : List UserFeed)
    (h : ∀ f ∈ store, f.id ≠ feedId) :
    handleFeedRejectedDisableFeed mapCode feedId rejectedCode store =
      (store, true) := by
  have hfind : findById store feedId = none := by
    rw [findById, List.find?_eq_none]
    intro f hf
    simpa using h f hf
  simp [handleFeedRejectedDisableFeed, hfind]

/-- C7 witness: a concrete store holding one feed with a different id. -/
theorem feedRejected_missing_feed_noop_witness :
    handleFeedRejectedDisableFeed (fun c => c) "missing" "rc"
        [mkFeed "fa" "http://x" 60 "u1" none [] []] =
      ([mkFeed "fa" "http://x" 60 "u1" none [] []], true) :=
  feedRejected_missing_feed_noop (fun c => c) "missing" "rc"
    [mkFeed "fa" "http://x" 60 "u1" none [] []] (by decide)

theorem chunkListFuel_flatten (n : Nat) (hn : n ≠ 0) :
    ∀ (fuel : Nat) (l : List α), l.length ≤ fuel →
      (chunkListFuel n fuel l).flatten = l := by
  intro fuel
  induction fuel with
  | zero =>
    intro l hl
    cases l with
    | nil => rfl
    | cons x xs => simp at hl
  | succ fuel ih =>
    intro l hl
    cases l with
    | nil => rfl
    | cons x xs =>
      rw [chunkListFuel, List.flatten_cons, ih ((x :: xs).drop n) ?_,
        List.take_append_drop]
      simp only [List.length_cons] at hl
      simp only [List.length_drop, List.length_cons]
      omega

theorem chunkList_flatten (n : Nat) (hn : n ≠ 0) (l : List α) :
    (chunkList n l).flatten = l := by
  rw [chunkList, if_neg hn]
  exact chunkListFuel_flatten n hn l.length l le_rfl

theorem mem_of_mem_chunkList {n : Nat} (hn : n ≠ 0) {l b : List α} {x : α}
    (hb : b ∈ chunkList n l) (hx : x ∈ b) : x ∈ l := by
  rw [← chunkList_flatten n hn l]
  exact List.mem_flatten.mpr ⟨b, hb, hx⟩

theorem getFeedsQueryPred_spec {rate : Nat} {f : UserFeed}
    (h : getFeedsQueryPred rate f = true) :
    f.refreshRateSeconds = rate ∧ f.disabledCode = none ∧
    ((∃ c ∈ f.connections.discordChannels, c.disabledCode = none) ∨
     (∃ w ∈ f.connections.discordWebhooks, w.disabledCode = none)) := by
  simp only [getFeedsQueryPred, Bool.and_eq_true, Bool.or_eq_true,
    decide_eq_true_eq, Option.isNone_iff_eq_none, List.any_eq_true] at h
  obtain ⟨⟨h1, h2⟩, h3⟩ := h
  refine ⟨h1, h2, ?_⟩
  rcases h3 with ⟨_, c, hc, hcc⟩ | ⟨_, w, hw, hww⟩
  · exact Or.inl ⟨c, hc, hcc⟩
  · exact Or.inr ⟨w, hw, hww⟩

/-- C3: a dispatch pass hands `feedHandler` only feeds that are enabled, at
the requested rate, and have at least one enabled destination; and every URL
of every batch handed to `urlsHandler` belongs to some such feed. -/
theorem handleRefreshRate_dispatches_only_enabled (benefits : List UserBenefits)
    (d maxDef rate : Nat) (store : List UserFeed) :
    (∀ fc ∈ (handleRefreshRate benefits d maxDef rate store).feedCalls,
      fc.1.disabledCode = none ∧ fc.1.refreshRateSeconds = rate ∧
      ((∃ c ∈ fc.1.connections.discordChannels, c.disabledCode = none) ∨
       (∃ w ∈ fc.1.connections.discordWebhooks, w.disabledCode = none))) ∧
    (∀ batch ∈ (handleRefreshRate benefits d maxDef rate store).urlBatches,
      ∀ u ∈ batch,
        ∃ f ∈ (handleRefreshRate benefits d maxDef rate store).store,
          f.url = u ∧ f.disabledCode = none ∧
          ((∃ c ∈ f.connections.discordChannels, c.disabledCode = none) ∨
           (∃ w ∈ f.connections.discordWebhooks, w.disabledCode = none))) := by
  constructor
  · intro fc hfc
    simp only [handleRefreshRate] at hfc
    obtain ⟨f, hf, rfl⟩ := List.mem_map.mp hfc
    obtain ⟨h1, h2, h3⟩ := getFeedsQueryPred_spec (List.mem_filter.mp hf).2
    exact ⟨h2, h1, h3⟩
  · intro batch hb u hu
    simp only [handleRefreshRate] at hb
    have hurl : u ∈ getUrlsMatchingRefreshRate rate
        (syncRefreshRates benefits d store) :=
      mem_of_mem_chunkList (by omega) hb hu
    rw [getUrlsMatchingRefreshRate, List.mem_dedup] at hurl
    obtain ⟨f, hf, rfl⟩ := List.mem_map.mp hurl
    obtain ⟨h1, h2, h3⟩ := getFeedsQueryPred_spec (List.mem_filter.mp hf).2
    exact ⟨f, (List.mem_filter.mp hf).1, rfl, h2, h3⟩

/-- C3 witness: one enabled feed with one enabled channel, matching the rate;
the feed call and the singleton URL batch both satisfy the guarantees. -/
theorem handleRefreshRate_dispatches_only_enabled_witness :
    ((mkFeed "fa" "http://x" 60 "u1" none [mkChannelConnection "c1" none] [],
        (50 : Nat)).1.disabledCode = none ∧
      (mkFeed "fa" "http://x" 60 "u1" none [mkChannelConnection "c1" none] [],
        (50 : Nat)).1.refreshRateSeconds = 60 ∧
      ((∃ c ∈ (mkFeed "fa" "http://x" 60 "u1" none
            [mkChannelConnection "c1" none] [],
          (50 : Nat)).1.connections.discordChannels, c.disabledCode = none) ∨
       (∃ w ∈ (mkFeed "fa" "http://x" 60 "u1" none
            [mkChannelConnection "c1" none] [],
          (50 : Nat)).1.connections.discordWebhooks, w.disabledCode = none))) ∧
    (∃ f ∈ (handleRefreshRate [] 60 50 60
        [mkFeed "fa" "http://x" 60 "u1" none
          [mkChannelConnection "c1" none] []]).store,
      f.url = "http://x" ∧ f.disabledCode = none ∧
      ((∃ c ∈ f.connections.discordChannels, c.disabledCode = none) ∨
       (∃ w ∈ f.connections.discordWebhooks, w.disabledCode = none))) :=
  ⟨(handleRefreshRate_dispatches_only_enabled [] 60 50 60
      [mkFeed "fa" "http://x" 60 "u1" none [mkChannelConnection "c1" none] []]).1
    (mkFeed "fa" "http://x" 60 "u1" none [mkChannelConnection "c1" none] [],
      (50 : Nat)) (by decide),
   (handleRefreshRate_dispatches_only_enabled [] 60 50 60
      [mkFeed "fa" "http://x" 60 "u1" none [mkChannelConnection "c1" none] []]).2
    ["http://x"] (by decide) "http://x" (by decide)⟩

theorem mapGet_concat (es : List (String × Nat)) (p : String × Nat)
    (k : String) :
    mapGet (es ++ [p]) k = if p.1 = k then some p.2 else mapGet es k := by
  simp [mapGet, List.foldl_append]

theorem mapGet_eq_reverse_find (es : List (String × Nat)) (k : String) :
    mapGet es k =
      (es.reverse.find? (fun p => decide (p.1 = k))).map (·.2) := by
  induction es using List.reverseRecOn with
  | nil => rfl
  | append_singleton es p ih =>
    rw [mapGet_concat, List.reverse_append]
    simp only [List.reverse_cons, List.reverse_nil, List.nil_append,
      List.singleton_append, List.find?_cons]
    by_cases hp : p.1 = k
    · simp [hp]
    · simp [hp, ih]

/-- C8 counterexample: an account whose benefit record carries
`maxDailyArticles = 0` appears in the benefit list, yet the dispatched value
is the system default (50), because the JS lookup is combined with the default
by `||`, which treats `0` as falsy. -/
theorem handleRefreshRate_maxDaily_claim_cex :
    ¬ (∀ fc ∈ (handleRefreshRate [⟨"u1", 600, 0, 1, false⟩] 600 50 600
          [mkFeed "fa" "http://x" 600 "u1" none
            [mkChannelConnection "c1" none] []]).feedCalls,
        ∀ b ∈ [(⟨"u1", 600, 0, 1, false⟩ : UserBenefits)],
          b.discordUserId = fc.1.user.discordUserId →
            fc.2 = b.maxDailyArticles) := by
  decide

/-- C8 amended: the dispatched `maxDailyArticles` is the account's last
benefit entry's max-daily-deliveries when that value is nonzero, and the
system default when the account has no benefit record or its entitlement is
zero (`dailyLimits.get(id) || default` with JS falsiness of 0). -/
theorem handleRefreshRate_maxDaily_resolution (benefits : List UserBenefits)
    (d maxDef rate : Nat) (store : List UserFeed) :
    ∀ fc ∈ (handleRefreshRate benefits d maxDef rate store).feedCalls,
      fc.2 =
        match ((benefits.map fun b =>
            (b.discordUserId, b.maxDailyArticles)).reverse.find?
            (fun p => decide (p.1 = fc.1.user.discordUserId))) with
        | some p => if p.2 = 0 then maxDef else p.2
        | none => maxDef := by
  intro fc hfc
  simp only [handleRefreshRate] at hfc
  obtain ⟨f, hf, rfl⟩ := List.mem_map.mp hfc
  show orDefault _ _ = _
  rw [mapGet_eq_reverse_find]
  cases ((benefits.map fun b =>
      (b.discordUserId, b.maxDailyArticles)).reverse.find?
      (fun p => decide (p.1 = f.user.discordUserId))) with
  | none => rfl
  | some p => rfl

/-- C8 witness: an account with a nonzero entitlement (25) receives it. -/
theorem handleRefreshRate_maxDaily_resolution_witness :
    ((mkFeed "fa" "http://x" 600 "u1" none [mkChannelConnection "c1" none] [],
        (25 : Nat)) : UserFeed × Nat).2 =
      match ((([(⟨"u1", 600, 25, 1, false⟩ : UserBenefits)].map fun b =>
          (b.discordUserId, b.maxDailyArticles)).reverse.find?
          (fun p => decide (p.1 =
            ((mkFeed "fa" "http://x" 600 "u1" none
                [mkChannelConnection "c1" none] [],
              (25 : Nat)) : UserFeed × Nat).1.user.discordUserId)))) with
      | some p => if p.2 = 0 then 50 else p.2
      | none => 50 :=
  handleRefreshRate_maxDaily_resolution [⟨"u1", 600, 25, 1, false⟩] 600 50 600
    [mkFeed "fa" "http://x" 600 "u1" none [mkChannelConnection "c1" none] []]
    (mkFeed "fa" "http://x" 600 "u1" none [mkChannelConnection "c1" none] [],
      (25 : Nat)) (by decide)

/-! ## Monotonicity of disablement (C2) -/

/-- Every disablement code already set on the feed document or on one of its
destinations (by position) survives the transition from `f` to `g`. -/
def FeedPreserves (f g : UserFeed) : Prop :=
  (∀ c, f.disabledCode = some c → g.disabledCode = some c) ∧
  (∀ (j : Nat) (conn : DiscordChannelConnection),
    f.connections.discordChannels[j]? = some conn →
    ∃ conn2, g.connections.discordChannels[j]? = some conn2 ∧
      ∀ c, conn.disabledCode = some c → conn2.disabledCode = some c) ∧
  (∀ (j : Nat) (conn : DiscordWebhookConnection),
    f.connections.discordWebhooks[j]? = some conn →
    ∃ conn2, g.connections.discordWebhooks[j]? = some conn2 ∧
      ∀ c, conn.disabledCode = some c → conn2.disabledCode = some c)

/-- Position-wise `FeedPreserves` between two store states. -/
def StorePreserves (s t : List UserFeed) : Prop :=
  ∀ (i : Nat) (f : UserFeed), s[i]? = some f →
    ∃ g, t[i]? = some g ∧ FeedPreserves f g

theorem feedPreserves_refl (f : UserFeed) : FeedPreserves f f :=
  ⟨fun _ hc => hc,
   fun _ conn hconn => ⟨conn, hconn, fun _ hc => hc⟩,
   fun _ conn hconn => ⟨conn, hconn, fun _ hc => hc⟩⟩

theorem feedPreserves_trans {f g h : UserFeed} (h1 : FeedPreserves f g)
    (h2 : FeedPreserves g h) : FeedPreserves f h := by
  refine ⟨fun c hc => h2.1 c (h1.1 c hc), ?_, ?_⟩
  · intro j conn hconn
    obtain ⟨c2, hc2, hp2⟩ := h1.2.1 j conn hconn
    obtain ⟨c3, hc3, hp3⟩ := h2.2.1 j c2 hc2
    exact ⟨c3, hc3, fun c hc => hp3 c (hp2 c hc)⟩
  · intro j conn hconn
    obtain ⟨c2, hc2, hp2⟩ := h1.2.2 j conn hconn
    obtain ⟨c3, hc3, hp3⟩ := h2.2.2 j c2 hc2
    exact ⟨c3, hc3, fun c hc => hp3 c (hp2 c hc)⟩

theorem storePreserves_refl (s : List UserFeed) : StorePreserves s s :=
  fun _ f hf => ⟨f, hf, feedPreserves_refl f⟩

theorem storePreserves_trans {s t u : List UserFeed} (h1 : StorePreserves s t)
    (h2 : StorePreserves t u) : StorePreserves s u := by
  intro i f hf
  obtain ⟨g, hg, hp1⟩ := h1 i f hf
  obtain ⟨h', hh, hp2⟩ := h2 i g hg
  exact ⟨h', hh, feedPreserves_trans hp1 hp2⟩

theorem storePreserves_updateMany (p : UserFeed → Bool)
    (u : UserFeed → UserFeed) (s : List UserFeed)
    (h : ∀ f, p f = true → FeedPreserves f (u f)) :
    StorePreserves s (updateMany p u s) := by
  intro i f hf
  refine ⟨if p f then u f else f, ?_, ?_⟩
  · simp [updateMany, List.getElem?_map, hf]
  · by_cases hp : p f
    · rw [if_pos hp]
      exact h f hp
    · rw [if_neg hp]
      exact feedPreserves_refl f

theorem updateFirst_getElem? (p : UserFeed → Bool) (u : UserFeed → UserFeed) :
    ∀ (s : List UserFeed) (i : Nat),
      (updateFirst p u s)[i]? = s[i]? ∨
      ∃ f, s[i]? = some f ∧ p f = true ∧
        (updateFirst p u s)[i]? = some (u f) := by
  intro s
  induction s with
  | nil => intro i; left; rfl
  | cons f fs ih =>
    intro i
    rw [updateFirst]
    by_cases hp : p f
    · rw [if_pos hp]
      cases i with
      | zero => right; exact ⟨f, by simp, hp, by simp⟩
      | succ j => left; simp
    · rw [if_neg hp]
      cases i with
      | zero => left; simp
      | succ j =>
        rcases ih j with h | ⟨g, hg, hpg, hres⟩
        · left; simpa using h
        · right; exact ⟨g, by simpa using hg, hpg, by simpa using hres⟩

theorem storePreserves_updateFirst (p : UserFeed → Bool)
    (u : UserFeed → UserFeed) (s : List UserFeed)
    (h : ∀ f, p f = true → FeedPreserves f (u f)) :
    StorePreserves s (updateFirst p u s) := by
  intro i f hf
  rcases updateFirst_getElem? p u s i with heq | ⟨g, hg, hpg, hres⟩
  · rw [heq]
    exact ⟨f, hf, feedPreserves_refl f⟩
  · rw [hf] at hg
    cases hg
    exact ⟨u f, hres, h f hpg⟩

theorem modifyAt_getElem? (g : α → α) :
    ∀ (l : List α) (i j : Nat),
      (modifyAt i g l)[j]? = if j = i then (l[j]?).map g else l[j]? := by
  intro l
  induction l with
  | nil => intro i j; simp [modifyAt]
  | cons x xs ih =>
    intro i j
    cases i with
    | zero =>
      cases j with
      | zero => simp [modifyAt]
      | succ jj => simp [modifyAt]
    | succ ii =>
      cases j with
      | zero => simp [modifyAt]
      | succ jj => simp [modifyAt, ih ii jj]

theorem feedPreserves_setChannel (i : Nat) (code : DisabledCode) (f : UserFeed)
    (h : channelDisabledCodeAbsentAt f i = true) :
    FeedPreserves f (setChannelDisabledCodeAt i code f) := by
  refine ⟨fun _ hc => hc, ?_, fun _ conn hconn => ⟨conn, hconn, fun _ hc => hc⟩⟩
  intro j conn hconn
  by_cases hj : j = i
  · subst hj
    refine ⟨{ conn with disabledCode := some code }, ?_, ?_⟩
    · show (modifyAt j _ f.connections.discordChannels)[j]? = _
      rw [modifyAt_getElem?, if_pos (Eq.refl j), hconn]
      rfl
    · intro c hc
      rw [channelDisabledCodeAbsentAt, hconn] at h
      simp [hc] at h
  · refine ⟨conn, ?_, fun _ hc => hc⟩
    show (modifyAt i _ f.connections.discordChannels)[j]? = some conn
    rw [modifyAt_getElem?, if_neg hj]
    exact hconn

theorem feedPreserves_setWebhook (i : Nat) (code : DisabledCode) (f : UserFeed)
    (h : webhookDisabledCodeAbsentAt f i = true) :
    FeedPreserves f (setWebhookDisabledCodeAt i code f) := by
  refine ⟨fun _ hc => hc, fun _ conn hconn => ⟨conn, hconn, fun _ hc => hc⟩, ?_⟩
  intro j conn hconn
  by_cases hj : j = i
  · subst hj
    refine ⟨{ conn with disabledCode := some code }, ?_, ?_⟩
    · show (modifyAt j _ f.connections.discordWebhooks)[j]? = _
      rw [modifyAt_getElem?, if_pos (Eq.refl j), hconn]
      rfl
    · intro c hc
      rw [webhookDisabledCodeAbsentAt, hconn] at h
      simp [hc] at h
  · refine ⟨conn, ?_, fun _ hc => hc⟩
    show (modifyAt i _ f.connections.discordWebhooks)[j]? = some conn
    rw [modifyAt_getElem?, if_neg hj]
    exact hconn

theorem storePreserves_disableChannelConnectionAt (fid : String) (i : Nat)
    (code : DisabledCode) (s : List UserFeed) :
    StorePreserves s (disableChannelConnectionAt fid i code s) := by
  apply storePreserves_updateFirst
  intro f hp
  simp only [Bool.and_eq_true] at hp
  exact feedPreserves_setChannel i code f hp.2

theorem storePreserves_disableWebhookConnectionAt (fid : String) (i : Nat)
    (code : DisabledCode) (s : List UserFeed) :
    StorePreserves s (disableWebhookConnectionAt fid i code s) := by
  apply storePreserves_updateFirst
  intro f hp
  simp only [Bool.and_eq_true] at hp
  exact feedPreserves_setWebhook i code f hp.2

theorem storePreserves_foldl {β : Type _} (step : List UserFeed → β → List UserFeed)
    (l : List β) (s : List UserFeed)
    (h : ∀ t b, StorePreserves t (step t b)) :
    StorePreserves s (l.foldl step s) := by
  induction l generalizing s with
  | nil => exact storePreserves_refl s
  | cons b bs ih => exact storePreserves_trans (h s b) (ih (step s b))

theorem storePreserves_handleUrlRequestFailureEvent (url : String)
    (s : List UserFeed) :
    StorePreserves s (handleUrlRequestFailureEvent url s) := by
  apply storePreserves_updateMany
  intro f hp
  simp only [decide_eq_true_eq] at hp
  refine ⟨?_, fun _ conn hconn => ⟨conn, hconn, fun _ hc => hc⟩,
    fun _ conn hconn => ⟨conn, hconn, fun _ hc => hc⟩⟩
  intro c hc
  rw [hp.2] at hc
  cases hc

theorem storePreserves_handleFeedRejectedDisableFeed
    (mapCode : String → DisabledCode) (fid code : String) (s : List UserFeed) :
    StorePreserves s (handleFeedRejectedDisableFeed mapCode fid code s).1 := by
  rw [handleFeedRejectedDisableFeed]
  cases hfind : findById s fid with
  | none => exact storePreserves_refl s
  | some found =>
    apply storePreserves_updateFirst
    intro f hp
    simp only [decide_eq_true_eq] at hp
    refine ⟨?_, fun _ conn hconn => ⟨conn, hconn, fun _ hc => hc⟩,
      fun _ conn hconn => ⟨conn, hconn, fun _ hc => hc⟩⟩
    intro c hc
    rw [hp.2] at hc
    cases hc

theorem storePreserves_handleRejectedArticleDisableConnection
    (mapCode : String → DisabledCode) (fid mid code : String)
    (s : List UserFeed) :
    StorePreserves s
      (handleRejectedArticleDisableConnection mapCode fid mid code s).1 := by
  rw [handleRejectedArticleDisableConnection]
  cases hfind : findById s fid with
  | none => exact storePreserves_refl s
  | some found =>
    refine storePreserves_trans
      (storePreserves_foldl _ _ s ?_) (storePreserves_foldl _ _ _ ?_)
    · intro t b
      exact storePreserves_disableChannelConnectionAt fid b _ t
    · intro t b
      exact storePreserves_disableWebhookConnectionAt fid b _ t

theorem storePreserves_applyOutcomeEvent
    (mapFeedRejectCode mapArticleRejectCode : String → DisabledCode)
    (e : OutcomeEvent) (s : List UserFeed) :
    StorePreserves s
      (applyOutcomeEvent mapFeedRejectCode mapArticleRejectCode e s) := by
  cases e with
  | urlFailure url => exact storePreserves_handleUrlRequestFailureEvent url s
  | feedRejected fid code =>
    exact storePreserves_handleFeedRejectedDisableFeed mapFeedRejectCode
      fid code s
  | articleRejected fid mid code =>
    exact storePreserves_handleRejectedArticleDisableConnection
      mapArticleRejectCode fid mid code s

/-- C2: replaying any sequence of outcome events never clears or overwrites a
disablement code that is already set, on any feed or any destination: every
handler's store update is guarded on the code being absent. -/
theorem outcomeEvents_preserve_disablement
    (mapFeedRejectCode mapArticleRejectCode : String → DisabledCode)
    (events : List OutcomeEvent) (store : List UserFeed) :
    StorePreserves store
      (replayOutcomeEvents mapFeedRejectCode mapArticleRejectCode events
        store) := by
  apply storePreserves_foldl
  intro t e
  exact storePreserves_applyOutcomeEvent mapFeedRejectCode
    mapArticleRejectCode e t

/-- C2 witness: a feed already disabled with code "X" and a destination with
code "Y" keep those codes after replaying one event of each kind. -/
theorem outcomeEvents_preserve_disablement_witness :
    ((replayOutcomeEvents (fun c => c) (fun c => c)
        [OutcomeEvent.urlFailure "http://x",
         OutcomeEvent.feedRejected "fa" "rc",
         OutcomeEvent.articleRejected "fa" "c1" "rc"]
        [mkFeed "fa" "http://x" 60 "u1" (some "X")
          [mkChannelConnection "c1" (some "Y")] []])[0]?).map
      (fun g => g.disabledCode) = some (some "X") := by
  obtain ⟨g, hg, hp⟩ := outcomeEvents_preserve_disablement
    (fun c => c) (fun c => c)
    [OutcomeEvent.urlFailure "http://x",
     OutcomeEvent.feedRejected "fa" "rc",
     OutcomeEvent.articleRejected "fa" "c1" "rc"]
    [mkFeed "fa" "http://x" 60 "u1" (some "X")
      [mkChannelConnection "c1" (some "Y")] []] 0
    (mkFeed "fa" "http://x" 60 "u1" (some "X")
      [mkChannelConnection "c1" (some "Y")] []) (Eq.refl _)
  rw [hg, Option.map_some']
  exact congrArg some (hp.1 "X" (Eq.refl _))

/-! ## Targeted destination updates (C6) -/

/-- The action of one `updateOne` of the destination-rejection loop on a
single document (channel kind). -/
def chanStep (fid : String) (code : DisabledCode) (f : UserFeed) (i : Nat) :
    UserFeed :=
  if decide (f.id = fid) && channelDisabledCodeAbsentAt f i then
    setChannelDisabledCodeAt i code f
  else f

def hookStep (fid : String) (code : DisabledCode) (f : UserFeed) (i : Nat) :
    UserFeed :=
  if decide (f.id = fid) && webhookDisabledCodeAbsentAt f i then
    setWebhookDisabledCodeAt i code f
  else f

/-- Under unique document ids, `updateOne` filtered on `_id = fid` acts like a
per-document conditional map. -/
theorem updateFirst_eq_map_of_nodup (fid : String) (q : UserFeed → Bool)
    (u : UserFeed → UserFeed) :
    ∀ (store : List UserFeed), (store.map (·.id)).Nodup →
      updateFirst (fun f => decide (f.id = fid) && q f) u store =
        store.map (fun f => if decide (f.id = fid) && q f then u f else f) := by
  intro store
  induction store with
  | nil => intro _; rfl
  | cons f fs ih =>
    intro hnd
    rw [List.map_cons, List.nodup_cons] at hnd
    rw [updateFirst, List.map_cons]
    by_cases hp : (decide (f.id = fid) && q f) = true
    · rw [if_pos hp, if_pos hp]
      congr 1
      have hfid : f.id = fid := by
        simp only [Bool.and_eq_true, decide_eq_true_eq] at hp
        exact hp.1
      have hall : ∀ g ∈ fs, (if decide (g.id = fid) && q g then u g else g) = g := by
        intro g hg
        have hgid : ¬(g.id = fid) := by
          intro hcontra
          apply hnd.1
          rw [hfid, ← hcontra]
          exact List.mem_map.mpr ⟨g, hg, Eq.refl g.id⟩
        rw [if_neg]
        simp [hgid]
      exact ((List.map_congr_left hall).trans (List.map_id fs)).symm
    · rw [if_neg hp, if_neg hp]
      congr 1
      exact ih hnd.2

/-- Under unique document ids, a fold of id-filtered `updateOne` calls is a
single per-document map of the per-document fold. -/
theorem foldl_updateFirstId_map {β : Type _} (fid : String)
    (qpred : β → UserFeed → Bool) (qupd : β → UserFeed → UserFeed)
    (hid : ∀ b f, (qupd b f).id = f.id) :
    ∀ (l : List β) (store : List UserFeed), (store.map (·.id)).Nodup →
      l.foldl (fun st b =>
          updateFirst (fun f => decide (f.id = fid) && qpred b f) (qupd b) st)
        store =
      store.map (fun f => l.foldl
        (fun f b => if decide (f.id = fid) && qpred b f then qupd b f else f)
        f) := by
  intro l
  induction l with
  | nil =>
    intro store _
    simp
  | cons b bs ih =>
    intro store hnd
    rw [List.foldl_cons,
      updateFirst_eq_map_of_nodup fid (qpred b) (qupd b) store hnd]
    have hcomp :
        ((·.id) ∘ fun f =>
          if decide (f.id = fid) && qpred b f then qupd b f else f) =
          fun f : UserFeed => f.id := by
      funext f
      by_cases hp : (decide (f.id = fid) && qpred b f) = true
      · simp [Function.comp, hp, hid]
      · simp [Function.comp, hp]
    have hnd2 :
        ((store.map fun f =>
          if decide (f.id = fid) && qpred b f then qupd b f else f).map
            (·.id)).Nodup := by
      rw [List.map_map, hcomp]
      exact hnd
    rw [ih _ hnd2, List.map_map]
    rfl

theorem chanStep_id (fid : String) (code : DisabledCode) (f : UserFeed)
    (i : Nat) : (chanStep fid code f i).id = f.id := by
  rw [chanStep]
  split <;> rfl

theorem hookStep_id (fid : String) (code : DisabledCode) (f : UserFeed)
    (i : Nat) : (hookStep fid code f i).id = f.id := by
  rw [hookStep]
  split <;> rfl

theorem chanFold_id (fid : String) (code : DisabledCode) (idxs : List Nat) :
    ∀ (f : UserFeed), (idxs.foldl (chanStep fid code) f).id = f.id := by
  induction idxs with
  | nil => intro f; rfl
  | cons i rest ih =>
    intro f
    rw [List.foldl_cons, ih (chanStep fid code f i), chanStep_id]

theorem hookFold_id (fid : String) (code : DisabledCode) (idxs : List Nat) :
    ∀ (f : UserFeed), (idxs.foldl (hookStep fid code) f).id = f.id := by
  induction idxs with
  | nil => intro f; rfl
  | cons i rest ih =>
    intro f
    rw [List.foldl_cons, ih (hookStep fid code f i), hookStep_id]

theorem chanFold_of_ne (fid : String) (code : DisabledCode) (idxs : List Nat) :
    ∀ (f : UserFeed), f.id ≠ fid → idxs.foldl (chanStep fid code) f = f := by
  induction idxs with
  | nil => intro f _; rfl
  | cons i rest ih =>
    intro f hne
    have hstep : chanStep fid code f i = f := by
      rw [chanStep, if_neg]
      simp [hne]
    rw [List.foldl_cons, hstep, ih f hne]

theorem hookFold_of_ne (fid : String) (code : DisabledCode) (idxs : List Nat) :
    ∀ (f : UserFeed), f.id ≠ fid → idxs.foldl (hookStep fid code) f = f := by
  induction idxs with
  | nil => intro f _; rfl
  | cons i rest ih =>
    intro f hne
    have hstep : hookStep fid code f i = f := by
      rw [hookStep, if_neg]
      simp [hne]
    rw [List.foldl_cons, hstep, ih f hne]

/-- `g` agrees with `f` on every field except possibly `connections`. -/
def EqOutsideConnections (f g : UserFeed) : Prop :=
  g = { f with connections := g.connections }

theorem eqOutsideConnections_refl (f : UserFeed) : EqOutsideConnections f f :=
  Eq.refl f

theorem eqOutsideConnections_trans {f g h : UserFeed}
    (h1 : EqOutsideConnections f g) (h2 : EqOutsideConnections g h) :
    EqOutsideConnections f h := by
  rw [EqOutsideConnections] at *
  calc h = { g with connections := h.connections } := h2
    _ = { { f with connections := g.connections } with
          connections := h.connections } := by rw [← h1]
    _ = { f with connections := h.connections } := Eq.refl _

theorem chanStep_frame (fid : String) (code : DisabledCode) (f : UserFeed)
    (i : Nat) : EqOutsideConnections f (chanStep fid code f i) := by
  rw [EqOutsideConnections, chanStep]
  split <;> rfl

theorem hookStep_frame (fid : String) (code : DisabledCode) (f : UserFeed)
    (i : Nat) : EqOutsideConnections f (hookStep fid code f i) := by
  rw [EqOutsideConnections, hookStep]
  split <;> rfl

theorem chanFold_frame (fid : String) (code : DisabledCode) (idxs : List Nat) :
    ∀ (f : UserFeed), EqOutsideConnections f (idxs.foldl (chanStep fid code) f) := by
  induction idxs with
  | nil => intro f; exact eqOutsideConnections_refl f
  | cons i rest ih =>
    intro f
    rw [List.foldl_cons]
    exact eqOutsideConnections_trans (chanStep_frame fid code f i)
      (ih (chanStep fid code f i))

theorem hookFold_frame (fid : String) (code : DisabledCode) (idxs : List Nat) :
    ∀ (f : UserFeed), EqOutsideConnections f (idxs.foldl (hookStep fid code) f) := by
  induction idxs with
  | nil => intro f; exact eqOutsideConnections_refl f
  | cons i rest ih =>
    intro f
    rw [List.foldl_cons]
    exact eqOutsideConnections_trans (hookStep_frame fid code f i)
      (ih (hookStep fid code f i))

theorem chanStep_webhooks (fid : String) (code : DisabledCode) (f : UserFeed)
    (i : Nat) :
    (chanStep fid code f i).connections.discordWebhooks =
      f.connections.discordWebhooks := by
  rw [chanStep]
  split <;> rfl

theorem hookStep_channels (fid : String) (code : DisabledCode) (f : UserFeed)
    (i : Nat) :
    (hookStep fid code f i).connections.discordChannels =
      f.connections.discordChannels := by
  rw [hookStep]
  split <;> rfl

theorem chanFold_webhooks (fid : String) (code : DisabledCode)
    (idxs : List Nat) :
    ∀ (f : UserFeed),
      (idxs.foldl (chanStep fid code) f).connections.discordWebhooks =
        f.connections.discordWebhooks := by
  induction idxs with
  | nil => intro f; rfl
  | cons i rest ih =>
    intro f
    rw [List.foldl_cons, ih (chanStep fid code f i), chanStep_webhooks]

theorem hookFold_channels (fid : String) (code : DisabledCode)
    (idxs : List Nat) :
    ∀ (f : UserFeed),
      (idxs.foldl (hookStep fid code) f).connections.discordChannels =
        f.connections.discordChannels := by
  induction idxs with
  | nil => intro f; rfl
  | cons i rest ih =>
    intro f
    rw [List.foldl_cons, ih (hookStep fid code f i), hookStep_channels]

/-- The net effect of the guarded `$set` on a destination entry: set the code
when it is absent, keep it otherwise. -/
def guardedSetCode (code : DisabledCode) (old : Option DisabledCode) :
    Option DisabledCode :=
  if old.isNone then some code else old

theorem chanStep_getElem_self (fid : String) (code : DisabledCode)
    (f : UserFeed) (j : Nat) (hid : f.id = fid) :
    (chanStep fid code f j).connections.discordChannels[j]? =
      (f.connections.discordChannels[j]?).map
        (fun conn =>
          { conn with disabledCode := guardedSetCode code conn.disabledCode }) := by
  rw [chanStep]
  by_cases habs : channelDisabledCodeAbsentAt f j = true
  · rw [if_pos (by simp [hid, habs])]
    show (modifyAt j _ f.connections.discordChannels)[j]? = _
    rw [modifyAt_getElem?, if_pos (Eq.refl j)]
    cases hc : f.connections.discordChannels[j]? with
    | none => rfl
    | some conn =>
      rw [channelDisabledCodeAbsentAt, hc] at habs
      simp only [Option.map_some']
      rw [guardedSetCode, if_pos habs]
  · rw [if_neg (by simp [habs])]
    cases hc : f.connections.discordChannels[j]? with
    | none => rfl
    | some conn =>
      rw [channelDisabledCodeAbsentAt, hc] at habs
      simp only [Bool.not_eq_true, Option.isNone_eq_false_iff,
        Option.isSome_iff_exists] at habs
      obtain ⟨a, ha⟩ := habs
      simp only [Option.map_some', guardedSetCode, ha, Option.isNone_some,
        Bool.false_eq_true, if_false]
      rw [← ha]

theorem hookStep_getElem_self (fid : String) (code : DisabledCode)
    (f : UserFeed) (j : Nat) (hid : f.id = fid) :
    (hookStep fid code f j).connections.discordWebhooks[j]? =
      (f.connections.discordWebhooks[j]?).map
        (fun conn =>
          { conn with disabledCode := guardedSetCode code conn.disabledCode }) := by
  rw [hookStep]
  by_cases habs : webhookDisabledCodeAbsentAt f j = true
  · rw [if_pos (by simp [hid, habs])]
    show (modifyAt j _ f.connections.discordWebhooks)[j]? = _
    rw [modifyAt_getElem?, if_pos (Eq.refl j)]
    cases hc : f.connections.discordWebhooks[j]? with
    | none => rfl
    | some conn =>
      rw [webhookDisabledCodeAbsentAt, hc] at habs
      simp only [Option.map_some']
      rw [guardedSetCode, if_pos habs]
  · rw [if_neg (by simp [habs])]
    cases hc : f.connections.discordWebhooks[j]? with
    | none => rfl
    | some conn =>
      rw [webhookDisabledCodeAbsentAt, hc] at habs
      simp only [Bool.not_eq_true, Option.isNone_eq_false_iff,
        Option.isSome_iff_exists] at habs
      obtain ⟨a, ha⟩ := habs
      simp only [Option.map_some', guardedSetCode, ha, Option.isNone_some,
        Bool.false_eq_true, if_false]
      rw [← ha]

theorem chanStep_getElem_ne (fid : String) (code : DisabledCode)
    (f : UserFeed) (i j : Nat) (hji : j ≠ i) :
    (chanStep fid code f i).connections.discordChannels[j]? =
      f.connections.discordChannels[j]? := by
  rw [chanStep]
  split
  · show (modifyAt i _ f.connections.discordChannels)[j]? = _
    rw [modifyAt_getElem?, if_neg hji]
  · rfl

theorem hookStep_getElem_ne (fid : String) (code : DisabledCode)
    (f : UserFeed) (i j : Nat) (hji : j ≠ i) :
    (hookStep fid code f i).connections.discordWebhooks[j]? =
      f.connections.discordWebhooks[j]? := by
  rw [hookStep]
  split
  · show (modifyAt i _ f.connections.discordWebhooks)[j]? = _
    rw [modifyAt_getElem?, if_neg hji]
  · rfl

theorem chanFold_getElem? (fid : String) (code : DisabledCode)
    (idxs : List Nat) :
    ∀ (f : UserFeed), f.id = fid → idxs.Nodup → ∀ (j : Nat),
      (idxs.foldl (chanStep fid code) f).connections.discordChannels[j]? =
        if j ∈ idxs then
          (f.connections.discordChannels[j]?).map
            (fun conn =>
              { conn with disabledCode := guardedSetCode code conn.disabledCode })
        else f.connections.discordChannels[j]? := by
  induction idxs with
  | nil =>
    intro f _ _ j
    simp
  | cons i rest ih =>
    intro f hid hnd j
    obtain ⟨hinotin, hnd'⟩ := List.nodup_cons.mp hnd
    rw [List.foldl_cons,
      ih (chanStep fid code f i) (by rw [chanStep_id]; exact hid) hnd' j]
    by_cases hji : j = i
    · subst hji
      rw [if_neg (fun hmem => hinotin hmem), if_pos (List.mem_cons.mpr (Or.inl (Eq.refl j)))]
      exact chanStep_getElem_self fid code f j hid
    · have hmem : (j ∈ i :: rest) ↔ (j ∈ rest) := by
        simp [List.mem_cons, hji]
      rw [chanStep_getElem_ne fid code f i j hji]
      by_cases hr : j ∈ rest
      · rw [if_pos hr, if_pos (hmem.mpr hr)]
      · rw [if_neg hr, if_neg (fun hc => hr (hmem.mp hc))]

theorem hookFold_getElem? (fid : String) (code : DisabledCode)
    (idxs : List Nat) :
    ∀ (f : UserFeed), f.id = fid → idxs.Nodup → ∀ (j : Nat),
      (idxs.foldl (hookStep fid code) f).connections.discordWebhooks[j]? =
        if j ∈ idxs then
          (f.connections.discordWebhooks[j]?).map
            (fun conn =>
              { conn with disabledCode := guardedSetCode code conn.disabledCode })
        else f.connections.discordWebhooks[j]? := by
  induction idxs with
  | nil =>
    intro f _ _ j
    simp
  | cons i rest ih =>
    intro f hid hnd j
    obtain ⟨hinotin, hnd'⟩ := List.nodup_cons.mp hnd
    rw [List.foldl_cons,
      ih (hookStep fid code f i) (by rw [hookStep_id]; exact hid) hnd' j]
    by_cases hji : j = i
    · subst hji
      rw [if_neg (fun hmem => hinotin hmem), if_pos (List.mem_cons.mpr (Or.inl (Eq.refl j)))]
      exact hookStep_getElem_self fid code f j hid
    · have hmem : (j ∈ i :: rest) ↔ (j ∈ rest) := by
        simp [List.mem_cons, hji]
      rw [hookStep_getElem_ne fid code f i j hji]
      by_cases hr : j ∈ rest
      · rw [if_pos hr, if_pos (hmem.mpr hr)]
      · rw [if_neg hr, if_neg (fun hc => hr (hmem.mp hc))]

theorem mem_channelIdxsMatching (conns : List DiscordChannelConnection)
    (mid : String) (j : Nat) :
    j ∈ channelIdxsMatching conns mid ↔
      ∃ c, conns[j]? = some c ∧ c.id = mid := by
  rw [channelIdxsMatching, List.mem_filter, List.mem_range]
  constructor
  · rintro ⟨hlt, hmatch⟩
    cases hc : conns[j]? with
    | none => rw [hc] at hmatch; cases hmatch
    | some c =>
      rw [hc] at hmatch
      exact ⟨c, Eq.refl _, by simpa using hmatch⟩
  · rintro ⟨c, hc, hcid⟩
    refine ⟨(List.getElem?_eq_some_iff.mp hc).1, ?_⟩
    rw [hc]
    simpa using hcid

theorem mem_webhookIdxsMatching (conns : List DiscordWebhookConnection)
    (mid : String) (j : Nat) :
    j ∈ webhookIdxsMatching conns mid ↔
      ∃ c, conns[j]? = some c ∧ c.id = mid := by
  rw [webhookIdxsMatching, List.mem_filter, List.mem_range]
  constructor
  · rintro ⟨hlt, hmatch⟩
    cases hc : conns[j]? with
    | none => rw [hc] at hmatch; cases hmatch
    | some c =>
      rw [hc] at hmatch
      exact ⟨c, Eq.refl _, by simpa using hmatch⟩
  · rintro ⟨c, hc, hcid⟩
    refine ⟨(List.getElem?_eq_some_iff.mp hc).1, ?_⟩
    rw [hc]
    simpa using hcid

theorem channelIdxsMatching_nodup (conns : List DiscordChannelConnection)
    (mid : String) : (channelIdxsMatching conns mid).Nodup :=
  List.Nodup.filter _ (List.nodup_range conns.length)

theorem webhookIdxsMatching_nodup (conns : List DiscordWebhookConnection)
    (mid : String) : (webhookIdxsMatching conns mid).Nodup :=
  List.Nodup.filter _ (List.nodup_range conns.length)

/-- C6: a destination-rejection event for feed `feedId` and medium `mediumId`
updates (guarded by absence) the disablement code of exactly the destinations
of that feed whose identity equals `mediumId` — across both kinds — and leaves
every other destination, every other field of the feed, and every other feed
unchanged. -/
theorem articleRejected_targets_only_matching_destination
    (mapCode : String → DisabledCode) (feedId mediumId rejectedCode : String)
    (store : List UserFeed) (hnd : (store.map (·.id)).Nodup) :
    (handleRejectedArticleDisableConnection mapCode feedId mediumId
        rejectedCode store).1.length = store.length ∧
    (∀ (i : Nat) (f : UserFeed), store[i]? = some f → f.id ≠ feedId →
      (handleRejectedArticleDisableConnection mapCode feedId mediumId
        rejectedCode store).1[i]? = some f) ∧
    (∀ (i : Nat) (f : UserFeed), store[i]? = some f → f.id = feedId →
      ∃ g, (handleRejectedArticleDisableConnection mapCode feedId mediumId
          rejectedCode store).1[i]? = some g ∧
        g = { f with connections := g.connections } ∧
        (∀ (j : Nat) (conn : DiscordChannelConnection),
          f.connections.discordChannels[j]? = some conn →
            g.connections.discordChannels[j]? =
              some (if conn.id = mediumId then
                { conn with disabledCode :=
                    guardedSetCode (mapCode rejectedCode) conn.disabledCode }
                else conn)) ∧
        (∀ (j : Nat) (conn : DiscordWebhookConnection),
          f.connections.discordWebhooks[j]? = some conn →
            g.connections.discordWebhooks[j]? =
              some (if conn.id = mediumId then
                { conn with disabledCode :=
                    guardedSetCode (mapCode rejectedCode) conn.disabledCode }
                else conn))) := by
  cases hfind : findById store feedId with
  | none =>
    have hnone : ∀ x ∈ store, x.id ≠ feedId := by
      intro x hx
      have := List.find?_eq_none.mp hfind x hx
      simpa using this
    have heq : (handleRejectedArticleDisableConnection mapCode feedId mediumId
        rejectedCode store).1 = store := by
      rw [handleRejectedArticleDisableConnection, hfind]
    refine ⟨by rw [heq], fun i f hf _ => by rw [heq]; exact hf, ?_⟩
    intro i f hf hfid
    exact absurd hfid (hnone f (List.getElem?_mem hf))
  | some found =>
    have hfoundid : found.id = feedId := by
      have := List.find?_some hfind
      simpa using this
    have hfoundmem : found ∈ store := List.mem_of_find?_eq_some hfind
    have heq : (handleRejectedArticleDisableConnection mapCode feedId mediumId
        rejectedCode store).1 =
        (webhookIdxsMatching found.connections.discordWebhooks mediumId).foldl
          (fun st i =>
            disableWebhookConnectionAt feedId i (mapCode rejectedCode) st)
          ((channelIdxsMatching found.connections.discordChannels
              mediumId).foldl
            (fun st i =>
              disableChannelConnectionAt feedId i (mapCode rejectedCode) st)
            store) := by
      rw [handleRejectedArticleDisableConnection, hfind]
    have hchan :
        (channelIdxsMatching found.connections.discordChannels mediumId).foldl
          (fun st i =>
            disableChannelConnectionAt feedId i (mapCode rejectedCode) st)
          store =
        store.map (fun f =>
          (channelIdxsMatching found.connections.discordChannels
            mediumId).foldl (chanStep feedId (mapCode rejectedCode)) f) :=
      foldl_updateFirstId_map feedId
        (fun i f => channelDisabledCodeAbsentAt f i)
        (fun i f => setChannelDisabledCodeAt i (mapCode rejectedCode) f)
        (fun _ _ => Eq.refl _)
        (channelIdxsMatching found.connections.discordChannels mediumId)
        store hnd
    have hcompid :
        ((·.id) ∘ fun f : UserFeed =>
          (channelIdxsMatching found.connections.discordChannels
            mediumId).foldl (chanStep feedId (mapCode rejectedCode)) f) =
          fun f : UserFeed => f.id :=
      funext fun f => chanFold_id feedId (mapCode rejectedCode) _ f
    have hnd2 :
        (((store.map fun f =>
          (channelIdxsMatching found.connections.discordChannels
            mediumId).foldl (chanStep feedId (mapCode rejectedCode)) f)).map
          (·.id)).Nodup := by
      rw [List.map_map, hcompid]
      exact hnd
    have hhook :
        (webhookIdxsMatching found.connections.discordWebhooks mediumId).foldl
          (fun st i =>
            disableWebhookConnectionAt feedId i (mapCode rejectedCode) st)
          (store.map fun f =>
            (channelIdxsMatching found.connections.discordChannels
              mediumId).foldl (chanStep feedId (mapCode rejectedCode)) f) =
        (store.map fun f =>
          (channelIdxsMatching found.connections.discordChannels
            mediumId).foldl (chanStep feedId (mapCode rejectedCode)) f).map
          (fun f =>
            (webhookIdxsMatching found.connections.discordWebhooks
              mediumId).foldl (hookStep feedId (mapCode rejectedCode)) f) :=
      foldl_updateFirstId_map feedId
        (fun i f => webhookDisabledCodeAbsentAt f i)
        (fun i f => setWebhookDisabledCodeAt i (mapCode rejectedCode) f)
        (fun _ _ => Eq.refl _)
        (webhookIdxsMatching found.connections.discordWebhooks mediumId)
        _ hnd2
    rw [heq, hchan, hhook, List.map_map]
    refine ⟨by rw [List.length_map], ?_, ?_⟩
    · intro i f hf hne
      rw [List.getElem?_map, hf, Option.map_some']
      show some ((webhookIdxsMatching _ _).foldl _
        ((channelIdxsMatching _ _).foldl _ f)) = some f
      rw [chanFold_of_ne _ _ _ f hne, hookFold_of_ne _ _ _ f hne]
    · intro i f hf hfid
      have hffound : f = found :=
        List.inj_on_of_nodup_map hnd (List.getElem?_mem hf) hfoundmem
          (by rw [hfid, hfoundid])
      refine ⟨_, by rw [List.getElem?_map, hf, Option.map_some'], ?_, ?_, ?_⟩
      · show EqOutsideConnections f _
        exact eqOutsideConnections_trans
          (chanFold_frame feedId (mapCode rejectedCode) _ f)
          (hookFold_frame feedId (mapCode rejectedCode) _ _)
      · intro j conn hconn
        show ((webhookIdxsMatching _ _).foldl (hookStep _ _)
          ((channelIdxsMatching _ _).foldl (chanStep _ _)
            f)).connections.discordChannels[j]? = _
        rw [hookFold_channels,
          chanFold_getElem? feedId (mapCode rejectedCode) _ f hfid
            (channelIdxsMatching_nodup _ _) j]
        have hmem : (j ∈ channelIdxsMatching
            found.connections.discordChannels mediumId) ↔ conn.id = mediumId := by
          rw [mem_channelIdxsMatching]
          constructor
          · rintro ⟨c, hc, hcid⟩
            rw [← hffound, hconn] at hc
            cases hc
            exact hcid
          · intro hcid
            exact ⟨conn, by rw [← hffound]; exact hconn, hcid⟩
        by_cases hid : conn.id = mediumId
        · rw [if_pos (hmem.mpr hid), if_pos hid, hconn, Option.map_some']
        · rw [if_neg (fun hc => hid (hmem.mp hc)), if_neg hid, hconn]
      · intro j conn hconn
        have hbaseid :
            ((channelIdxsMatching found.connections.discordChannels
              mediumId).foldl (chanStep feedId (mapCode rejectedCode)) f).id =
              feedId := by
          rw [chanFold_id]
          exact hfid
        show ((webhookIdxsMatching _ _).foldl (hookStep _ _)
          ((channelIdxsMatching _ _).foldl (chanStep _ _)
            f)).connections.discordWebhooks[j]? = _
        rw [hookFold_getElem? feedId (mapCode rejectedCode) _ _ hbaseid
          (webhookIdxsMatching_nodup _ _) j, chanFold_webhooks]
        have hmem : (j ∈ webhookIdxsMatching
            found.connections.discordWebhooks mediumId) ↔ conn.id = mediumId := by
          rw [mem_webhookIdxsMatching]
          constructor
          · rintro ⟨c, hc, hcid⟩
            rw [← hffound, hconn] at hc
            cases hc
            exact hcid
          · intro hcid
            exact ⟨conn, by rw [← hffound]; exact hconn, hcid⟩
        by_cases hid : conn.id = mediumId
        · rw [if_pos (hmem.mpr hid), hconn, Option.map_some', if_pos hid]
        · rw [if_neg (fun hc => hid (hmem.mp hc)), hconn, if_neg hid]

/-- Concrete feeds for the destination-rejection witness: `wfeedA` holds two
channel destinations (one matching the medium id) and one matching webhook
destination; `wfeedB` is an unrelated feed. -/
def wfeedA : UserFeed :=
  mkFeed "fa" "http://x" 60 "u1" none
    [mkChannelConnection "m1" none, mkChannelConnection "other" none]
    [mkWebhookConnection "m1" none]

def wfeedB : UserFeed := mkFeed "fb" "http://y" 60 "u2" none [] []

/-- C6 witness: on a concrete two-feed store, the unrelated feed is untouched
and the matching feed gets exactly its `m1` destinations updated. -/
theorem articleRejected_targets_only_matching_destination_witness :
    ((handleRejectedArticleDisableConnection (fun c => "a-" ++ c) "fa" "m1"
        "rc" [wfeedA, wfeedB]).1[1]? = some wfeedB) ∧
    ∃ g, (handleRejectedArticleDisableConnection (fun c => "a-" ++ c) "fa" "m1"
        "rc" [wfeedA, wfeedB]).1[0]? = some g ∧
      g = { wfeedA with connections := g.connections } ∧
      (∀ (j : Nat) (conn : DiscordChannelConnection),
        wfeedA.connections.discordChannels[j]? = some conn →
          g.connections.discordChannels[j]? =
            some (if conn.id = "m1" then
              { conn with disabledCode :=
                  guardedSetCode ((fun c => "a-" ++ c) "rc") conn.disabledCode }
              else conn)) ∧
      (∀ (j : Nat) (conn : DiscordWebhookConnection),
        wfeedA.connections.discordWebhooks[j]? = some conn →
          g.connections.discordWebhooks[j]? =
            some (if conn.id = "m1" then
              { conn with disabledCode :=
                  guardedSetCode ((fun c => "a-" ++ c) "rc") conn.disabledCode }
              else conn)) :=
  ⟨(articleRejected_targets_only_matching_destination (fun c => "a-" ++ c)
      "fa" "m1" "rc" [wfeedA, wfeedB] (by decide)).2.1 1 wfeedB
      (by decide) (by decide),
   (articleRejected_targets_only_matching_destination (fun c => "a-" ++ c)
      "fa" "m1" "rc" [wfeedA, wfeedB] (by decide)).2.2 0 wfeedA
      (by decide) (by decide)⟩

/-! ## Refresh rate synchronization (C1, C4) -/

/-- Number of occurrences of account id `u` across all rate buckets. -/
def countUid (u : String) (gs : List (Nat × List String)) : Nat :=
  ((gs.map (·.2)).flatten).count u

theorem countUid_nil (u : String) : countUid u [] = 0 := Eq.refl 0

theorem countUid_cons (u : String) (g : Nat × List String)
    (gs : List (Nat × List String)) :
    countUid u (g :: gs) = g.2.count u + countUid u gs := by
  simp [countUid, List.count_append]

theorem countUid_zero (u : String) (gs : List (Nat × List String)) :
    countUid u gs = 0 ↔ ∀ p ∈ gs, u ∉ p.2 := by
  rw [countUid, List.count_eq_zero, List.mem_flatten]
  constructor
  · intro h p hp hu
    exact h ⟨p.2, List.mem_map.mpr ⟨p, hp, Eq.refl p.2⟩, hu⟩
  · rintro h ⟨l, hl, hu⟩
    obtain ⟨p, hp, rfl⟩ := List.mem_map.mp hl
    exact h p hp hu

theorem addToRateGroups_count (u uid : String) (rate : Nat) :
    ∀ (gs : List (Nat × List String)),
      countUid u (addToRateGroups gs rate uid) =
        countUid u gs + (if uid = u then 1 else 0) := by
  intro gs
  induction gs with
  | nil =>
    rw [addToRateGroups, countUid_cons, countUid_nil]
    by_cases hu : uid = u <;> simp [List.count_singleton, hu]
  | cons g rest ih =>
    obtain ⟨r, uids⟩ := g
    rw [addToRateGroups]
    by_cases hr : r = rate
    · rw [if_pos hr, countUid_cons, countUid_cons]
      show (uids ++ [uid]).count u + countUid u rest = _
      rw [List.count_append]
      by_cases hu : uid = u <;> simp [List.count_singleton, hu] <;> omega
    · rw [if_neg hr, countUid_cons, countUid_cons, ih]
      omega

theorem addToRateGroups_sound (rate : Nat) (uid : String) :
    ∀ (gs : List (Nat × List String)) (p : Nat × List String),
      p ∈ addToRateGroups gs rate uid → ∀ u ∈ p.2,
        (∃ q ∈ gs, q.1 = p.1 ∧ u ∈ q.2) ∨ (u = uid ∧ p.1 = rate) := by
  intro gs
  induction gs with
  | nil =>
    intro p hp u hu
    rw [addToRateGroups] at hp
    have hp2 : p = (rate, [uid]) := by simpa using hp
    subst hp2
    right
    exact ⟨by simpa using hu, Eq.refl rate⟩
  | cons g rest ih =>
    obtain ⟨r, uids⟩ := g
    intro p hp u hu
    rw [addToRateGroups] at hp
    by_cases hr : r = rate
    · rw [if_pos hr] at hp
      rcases List.mem_cons.mp hp with rfl | hprest
      · rcases List.mem_append.mp hu with h1 | h2
        · left
          exact ⟨(r, uids), List.mem_cons_self _ _, Eq.refl r, h1⟩
        · right
          exact ⟨by simpa using h2, hr⟩
      · left
        exact ⟨p, List.mem_cons.mpr (Or.inr hprest), Eq.refl p.1, hu⟩
    · rw [if_neg hr] at hp
      rcases List.mem_cons.mp hp with rfl | hprest
      · left
        exact ⟨(r, uids), List.mem_cons_self _ _, Eq.refl r, hu⟩
      · rcases ih p hprest u hu with ⟨q, hq, hq1, hq2⟩ | hright
        · left
          exact ⟨q, List.mem_cons.mpr (Or.inr hq), hq1, hq2⟩
        · right
          exact hright

theorem supportersByRefreshRates_sound_aux :
    ∀ (vs : List UserBenefits) (gs : List (Nat × List String))
      (p : Nat × List String),
      p ∈ vs.foldl
        (fun gs s => addToRateGroups gs s.refreshRateSeconds s.discordUserId)
        gs →
      ∀ u ∈ p.2,
        (∃ q ∈ gs, q.1 = p.1 ∧ u ∈ q.2) ∨
        (∃ b ∈ vs, b.discordUserId = u ∧ b.refreshRateSeconds = p.1) := by
  intro vs
  induction vs with
  | nil =>
    intro gs p hp u hu
    left
    exact ⟨p, hp, Eq.refl p.1, hu⟩
  | cons s rest ih =>
    intro gs p hp u hu
    rw [List.foldl_cons] at hp
    rcases ih _ p hp u hu with ⟨q, hq, hq1, hq2⟩ | ⟨b, hb, hb1, hb2⟩
    · rcases addToRateGroups_sound s.refreshRateSeconds s.discordUserId gs q hq
        u hq2 with ⟨q2, hq2m, hq21, hq22⟩ | ⟨hueq, hqrate⟩
      · left
        exact ⟨q2, hq2m, hq21.trans hq1, hq22⟩
      · right
        exact ⟨s, List.mem_cons_self _ _, hueq.symm, by rw [← hqrate, hq1]⟩
    · right
      exact ⟨b, List.mem_cons.mpr (Or.inr hb), hb1, hb2⟩

theorem supportersByRefreshRates_sound (vs : List UserBenefits)
    (p : Nat × List String) (hp : p ∈ supportersByRefreshRates vs)
    (u : String) (hu : u ∈ p.2) :
    ∃ b ∈ vs, b.discordUserId = u ∧ b.refreshRateSeconds = p.1 := by
  rcases supportersByRefreshRates_sound_aux vs [] p hp u hu with
    ⟨q, hq, _⟩ | h
  · cases hq
  · exact h

theorem supportersByRefreshRates_count_aux :
    ∀ (vs : List UserBenefits) (gs : List (Nat × List String)) (u : String),
      countUid u (vs.foldl
        (fun gs s => addToRateGroups gs s.refreshRateSeconds s.discordUserId)
        gs) =
      countUid u gs + (vs.map (·.discordUserId)).count u := by
  intro vs
  induction vs with
  | nil => intro gs u; simp
  | cons s rest ih =>
    intro gs u
    rw [List.foldl_cons, ih, addToRateGroups_count, List.map_cons,
      List.count_cons]
    by_cases hu : s.discordUserId = u <;> simp [hu] <;> omega

theorem supportersByRefreshRates_count (vs : List UserBenefits) (u : String) :
    countUid u (supportersByRefreshRates vs) =
      (vs.map (·.discordUserId)).count u := by
  have := supportersByRefreshRates_count_aux vs [] u
  rw [countUid_nil] at this
  simpa [supportersByRefreshRates] using this

/-- The effect of the per-bucket bulk updates on a single feed document. -/
def applyRateGroupsToFeed (gs : List (Nat × List String)) (f : UserFeed) :
    UserFeed :=
  gs.foldl (fun f g => if rateGroupPred g f then rateGroupSet g f else f) f

/-- The effect of one whole `syncRefreshRates` pass on a single feed document. -/
def syncOne (benefits : List UserBenefits) (d : Nat) (f : UserFeed) :
    UserFeed :=
  let gs := supportersByRefreshRates (benefits.filter (·.isSupporter))
  let special := (gs.map (·.2)).flatten
  let f1 := applyRateGroupsToFeed gs f
  if defaultRatePred special d f1 then { f1 with refreshRateSeconds := d }
  else f1

theorem applyRateGroupsToFeed_user (gs : List (Nat × List String)) :
    ∀ (f : UserFeed), (applyRateGroupsToFeed gs f).user = f.user := by
  induction gs with
  | nil => intro f; rfl
  | cons g rest ih =>
    intro f
    show (applyRateGroupsToFeed rest
      (if rateGroupPred g f then rateGroupSet g f else f)).user = f.user
    rw [ih]
    by_cases hp : rateGroupPred g f = true
    · rw [if_pos hp]
      rfl
    · rw [if_neg hp]

theorem applyRateGroupsToFeed_of_not_mem (gs : List (Nat × List String)) :
    ∀ (f : UserFeed), (∀ p ∈ gs, f.user.discordUserId ∉ p.2) →
      applyRateGroupsToFeed gs f = f := by
  induction gs with
  | nil => intro f _; rfl
  | cons g rest ih =>
    intro f h
    have hp : rateGroupPred g f = false := by
      have := h g (List.mem_cons_self _ _)
      simp [rateGroupPred, this]
    show applyRateGroupsToFeed rest
      (if rateGroupPred g f then rateGroupSet g f else f) = f
    rw [if_neg (by simp [hp])]
    exact ih f (fun p hp2 => h p (List.mem_cons.mpr (Or.inr hp2)))

theorem applyRateGroupsToFeed_rate (r : Nat) :
    ∀ (gs : List (Nat × List String)) (f : UserFeed),
      countUid f.user.discordUserId gs ≠ 0 →
      (∀ p ∈ gs, f.user.discordUserId ∈ p.2 → p.1 = r) →
      (applyRateGroupsToFeed gs f).refreshRateSeconds = r := by
  intro gs
  induction gs with
  | nil =>
    intro f hcnt _
    exact absurd (countUid_nil f.user.discordUserId) hcnt
  | cons g rest ih =>
    intro f hcnt hall
    by_cases hmem : f.user.discordUserId ∈ g.2
    · have hg : g.1 = r := hall g (List.mem_cons_self _ _) hmem
      have hf1u :
          (if rateGroupPred g f then rateGroupSet g f else f).user = f.user := by
        by_cases hp : rateGroupPred g f = true
        · rw [if_pos hp]; rfl
        · rw [if_neg hp]
      have hf1rate :
          (if rateGroupPred g f then rateGroupSet g f else f).refreshRateSeconds
            = r := by
        by_cases hne : f.refreshRateSeconds = g.1
        · rw [if_neg]
          · rw [hne, hg]
          · simp [rateGroupPred, hne]
        · rw [if_pos]
          · show g.1 = r
            exact hg
          · simp [rateGroupPred, hmem, hne]
      show (applyRateGroupsToFeed rest
        (if rateGroupPred g f then rateGroupSet g f else f)).refreshRateSeconds
          = r
      by_cases hrest : countUid f.user.discordUserId rest = 0
      · rw [applyRateGroupsToFeed_of_not_mem rest _ ?_]
        · exact hf1rate
        · rw [hf1u]
          exact (countUid_zero _ _).mp hrest
      · apply ih
        · rw [hf1u]
          exact hrest
        · intro p hp hm
          exact hall p (List.mem_cons.mpr (Or.inr hp)) (by rw [← hf1u]; exact hm)
    · have hp : rateGroupPred g f = false := by simp [rateGroupPred, hmem]
      show (applyRateGroupsToFeed rest
        (if rateGroupPred g f then rateGroupSet g f else f)).refreshRateSeconds
          = r
      rw [if_neg (by simp [hp])]
      apply ih
      · rw [countUid_cons] at hcnt
        rw [List.count_eq_zero.mpr hmem] at hcnt
        simpa using hcnt
      · intro p hp2 hm
        exact hall p (List.mem_cons.mpr (Or.inr hp2)) hm

theorem foldl_updateManyCount_fst {β : Type _} (p : β → UserFeed → Bool)
    (u : β → UserFeed → UserFeed) (l : List β) :
    ∀ (s : List UserFeed) (n : Nat),
      (l.foldl (fun acc b =>
        ((updateManyCount (p b) (u b) acc.1).1,
         acc.2 + (updateManyCount (p b) (u b) acc.1).2)) (s, n)).1 =
      l.foldl (fun st b => updateMany (p b) (u b) st) s := by
  induction l with
  | nil => intro s n; rfl
  | cons b bs ih =>
    intro s n
    rw [List.foldl_cons, List.foldl_cons]
    exact ih (updateMany (p b) (u b) s) (n + matchedCount (p b) s)

theorem foldl_updateMany_map {β : Type _} (p : β → UserFeed → Bool)
    (u : β → UserFeed → UserFeed) (l : List β) :
    ∀ (s : List UserFeed),
      l.foldl (fun st b => updateMany (p b) (u b) st) s =
        s.map (fun f => l.foldl (fun f b => if p b f then u b f else f) f) := by
  induction l with
  | nil => intro s; simp
  | cons b bs ih =>
    intro s
    rw [List.foldl_cons, ih (updateMany (p b) (u b) s), updateMany,
      List.map_map]
    rfl

theorem syncRefreshRates_eq (benefits : List UserBenefits) (d : Nat)
    (store : List UserFeed) :
    syncRefreshRates benefits d store =
      updateMany
        (defaultRatePred
          (((supportersByRefreshRates
            (benefits.filter (·.isSupporter))).map (·.2)).flatten) d)
        (fun f => { f with refreshRateSeconds := d })
        ((supportersByRefreshRates (benefits.filter (·.isSupporter))).foldl
          (fun st g => updateMany (rateGroupPred g) (rateGroupSet g) st)
          store) := by
  have h := foldl_updateManyCount_fst rateGroupPred rateGroupSet
    (supportersByRefreshRates (benefits.filter (·.isSupporter))) store 0
  exact congrArg
    (updateMany
      (defaultRatePred
        (((supportersByRefreshRates
          (benefits.filter (·.isSupporter))).map (·.2)).flatten) d)
      (fun f => { f with refreshRateSeconds := d })) h

theorem syncRefreshRates_eq_map (benefits : List UserBenefits) (d : Nat)
    (store : List UserFeed) :
    syncRefreshRates benefits d store = store.map (syncOne benefits d) := by
  rw [syncRefreshRates_eq, foldl_updateMany_map, updateMany, List.map_map]
  rfl

theorem nodup_supporter_ids (benefits : List UserBenefits)
    (hnd : (benefits.map (·.discordUserId)).Nodup) :
    ((benefits.filter (·.isSupporter)).map (·.discordUserId)).Nodup :=
  List.Nodup.sublist (List.Sublist.map _ (List.filter_sublist benefits)) hnd

theorem entitledRefreshRate_eq_default (benefits : List UserBenefits) (d : Nat)
    (u : String)
    (h : ∀ b ∈ benefits.filter (·.isSupporter), b.discordUserId ≠ u) :
    entitledRefreshRate benefits d u = d := by
  rw [entitledRefreshRate]
  have hfind : (benefits.filter (·.isSupporter)).find?
      (fun b => decide (b.discordUserId = u)) = none :=
    List.find?_eq_none.mpr (fun b hb => by simpa using h b hb)
  rw [hfind]

theorem entitledRefreshRate_of_mem (benefits : List UserBenefits) (d : Nat)
    (b : UserBenefits)
    (hnd : ((benefits.filter (·.isSupporter)).map (·.discordUserId)).Nodup)
    (hb : b ∈ benefits.filter (·.isSupporter)) :
    entitledRefreshRate benefits d b.discordUserId = b.refreshRateSeconds := by
  rw [entitledRefreshRate]
  cases hfind : (benefits.filter (·.isSupporter)).find?
      (fun x => decide (x.discordUserId = b.discordUserId)) with
  | none =>
    have := List.find?_eq_none.mp hfind b hb
    simp at this
  | some b2 =>
    have h1 : b2.discordUserId = b.discordUserId := by
      simpa using List.find?_some hfind
    have h2 : b2 ∈ benefits.filter (·.isSupporter) :=
      List.mem_of_find?_eq_some hfind
    have hbb : b2 = b := List.inj_on_of_nodup_map hnd h2 hb h1
    rw [hbb]

theorem syncOne_user (benefits : List UserBenefits) (d : Nat) (f : UserFeed) :
    (syncOne benefits d f).user = f.user := by
  rw [syncOne]
  split
  · exact applyRateGroupsToFeed_user _ f
  · exact applyRateGroupsToFeed_user _ f

theorem syncOne_rate (benefits : List UserBenefits) (d : Nat)
    (hnd : (benefits.map (·.discordUserId)).Nodup) (f : UserFeed) :
    (syncOne benefits d f).refreshRateSeconds =
      entitledRefreshRate benefits d f.user.discordUserId := by
  have hndvs := nodup_supporter_ids benefits hnd
  by_cases hcase : ∃ b ∈ benefits.filter (·.isSupporter),
      b.discordUserId = f.user.discordUserId
  · obtain ⟨b, hb, hbu⟩ := hcase
    have hall : ∀ p ∈ supportersByRefreshRates
        (benefits.filter (·.isSupporter)),
        f.user.discordUserId ∈ p.2 → p.1 = b.refreshRateSeconds := by
      intro p hp hu
      obtain ⟨b2, hb2, hb2u, hb2r⟩ :=
        supportersByRefreshRates_sound (benefits.filter (·.isSupporter)) p hp
          f.user.discordUserId hu
      have hbb : b2 = b :=
        List.inj_on_of_nodup_map hndvs hb2 hb (by rw [hb2u, hbu])
      rw [← hb2r, hbb]
    have hcnt : countUid f.user.discordUserId
        (supportersByRefreshRates (benefits.filter (·.isSupporter))) ≠ 0 := by
      rw [supportersByRefreshRates_count]
      have hm : f.user.discordUserId ∈
          (benefits.filter (·.isSupporter)).map (·.discordUserId) :=
        List.mem_map.mpr ⟨b, hb, hbu⟩
      exact fun h0 => (List.count_eq_zero.mp h0) hm
    have hrate1 : (applyRateGroupsToFeed
        (supportersByRefreshRates (benefits.filter (·.isSupporter)))
        f).refreshRateSeconds = b.refreshRateSeconds :=
      applyRateGroupsToFeed_rate b.refreshRateSeconds _ f hcnt hall
    have huser1 : (applyRateGroupsToFeed
        (supportersByRefreshRates (benefits.filter (·.isSupporter))) f).user
        = f.user := applyRateGroupsToFeed_user _ f
    have hspecial : f.user.discordUserId ∈
        (((supportersByRefreshRates
          (benefits.filter (·.isSupporter))).map (·.2)).flatten) := by
      by_contra hnot
      exact hcnt (List.count_eq_zero.mpr hnot)
    have hdp : defaultRatePred
        (((supportersByRefreshRates
          (benefits.filter (·.isSupporter))).map (·.2)).flatten) d
        (applyRateGroupsToFeed
          (supportersByRefreshRates (benefits.filter (·.isSupporter))) f)
        = false := by
      rw [defaultRatePred, huser1]
      simp [hspecial]
    rw [syncOne, if_neg (by simp [hdp]), hrate1, ← hbu,
      entitledRefreshRate_of_mem benefits d b hndvs hb]
  · push_neg at hcase
    have hcnt : countUid f.user.discordUserId
        (supportersByRefreshRates (benefits.filter (·.isSupporter))) = 0 := by
      rw [supportersByRefreshRates_count, List.count_eq_zero]
      intro hmem
      obtain ⟨b, hb, hbu⟩ := List.mem_map.mp hmem
      exact hcase b hb hbu
    have hf1 : applyRateGroupsToFeed
        (supportersByRefreshRates (benefits.filter (·.isSupporter))) f = f :=
      applyRateGroupsToFeed_of_not_mem _ f ((countUid_zero _ _).mp hcnt)
    have hspecial : f.user.discordUserId ∉
        (((supportersByRefreshRates
          (benefits.filter (·.isSupporter))).map (·.2)).flatten) :=
      List.count_eq_zero.mp hcnt
    have hent : entitledRefreshRate benefits d f.user.discordUserId = d :=
      entitledRefreshRate_eq_default benefits d f.user.discordUserId hcase
    rw [syncOne, hf1, hent]
    by_cases hrate : f.refreshRateSeconds = d
    · rw [if_neg (by simp [defaultRatePred, hrate])]
      exact hrate
    · rw [if_pos (by simp [defaultRatePred, hspecial, hrate])]

/-- Core synchronization lemma: after one `syncRefreshRates` pass, every feed
sits at its owner's entitled rate (supporter) or at the process default. -/
theorem syncRefreshRates_rate_entitled (benefits : List UserBenefits) (d : Nat)
    (store : List UserFeed)
    (hnd : (benefits.map (·.discordUserId)).Nodup) :
    ∀ f ∈ syncRefreshRates benefits d store,
      f.refreshRateSeconds =
        entitledRefreshRate benefits d f.user.discordUserId := by
  intro f hf
  rw [syncRefreshRates_eq_map] at hf
  obtain ⟨f0, hf0, rfl⟩ := List.mem_map.mp hf
  rw [syncOne_rate benefits d hnd f0, syncOne_user benefits d f0]

/-- C1: after one run of `syncRefreshRates`, every feed's refresh rate equals
its owning account's entitled rate when the account has an active qualifying
benefit, and the process-wide default otherwise — regardless of the rate the
feed carried before the call. -/
theorem syncRefreshRates_sets_entitled_or_default
    (benefits : List UserBenefits) (d : Nat) (store : List UserFeed)
    (hnd : (benefits.map (·.discordUserId)).Nodup) :
    ∀ f ∈ syncRefreshRates benefits d store,
      f.refreshRateSeconds =
        entitledRefreshRate benefits d f.user.discordUserId :=
  syncRefreshRates_rate_entitled benefits d store hnd

/-- C1 witness: the spec's own example — a supporter entitled to 300 s with a
feed sitting at 600 s ends at 300 s after the pass. -/
theorem syncRefreshRates_sets_entitled_or_default_witness :
    (mkFeed "f1" "http://a" 300 "u1" none [] []).refreshRateSeconds =
      entitledRefreshRate [⟨"u1", 300, 100, 5, true⟩] 600
        (mkFeed "f1" "http://a" 300 "u1" none [] []).user.discordUserId :=
  syncRefreshRates_sets_entitled_or_default [⟨"u1", 300, 100, 5, true⟩] 600
    [mkFeed "f1" "http://a" 600 "u1" none [] []] (by decide)
    (mkFeed "f1" "http://a" 300 "u1" none [] []) (by decide)

theorem updateMany_of_false (p : UserFeed → Bool) (u : UserFeed → UserFeed)
    (store : List UserFeed) (h : ∀ f ∈ store, p f = false) :
    updateMany p u store = store := by
  rw [updateMany]
  have hall : ∀ f ∈ store, (if p f then u f else f) = f := by
    intro f hf
    rw [h f hf]
    simp
  exact (List.map_congr_left hall).trans (List.map_id store)

theorem rateGroupPred_false_of_entitled (benefits : List UserBenefits)
    (d : Nat) (hnd : (benefits.map (·.discordUserId)).Nodup)
    (g : Nat × List String)
    (hg : g ∈ supportersByRefreshRates (benefits.filter (·.isSupporter)))
    (f : UserFeed)
    (hf : f.refreshRateSeconds =
      entitledRefreshRate benefits d f.user.discordUserId) :
    rateGroupPred g f = false := by
  by_cases hmem : f.user.discordUserId ∈ g.2
  · obtain ⟨b, hb, hbu, hbr⟩ :=
      supportersByRefreshRates_sound (benefits.filter (·.isSupporter)) g hg
        f.user.discordUserId hmem
    have hent : entitledRefreshRate benefits d f.user.discordUserId =
        b.refreshRateSeconds := by
      rw [← hbu]
      exact entitledRefreshRate_of_mem benefits d b
        (nodup_supporter_ids benefits hnd) hb
    have hrg : f.refreshRateSeconds = g.1 := by rw [hf, hent, hbr]
    simp [rateGroupPred, hrg]
  · simp [rateGroupPred, hmem]

theorem defaultRatePred_false_of_entitled (benefits : List UserBenefits)
    (d : Nat) (f : UserFeed)
    (hf : f.refreshRateSeconds =
      entitledRefreshRate benefits d f.user.discordUserId) :
    defaultRatePred
      (((supportersByRefreshRates
        (benefits.filter (·.isSupporter))).map (·.2)).flatten) d f = false := by
  by_cases hmem : f.user.discordUserId ∈
      (((supportersByRefreshRates
        (benefits.filter (·.isSupporter))).map (·.2)).flatten)
  · simp [defaultRatePred, hmem]
  · have hnosup : ∀ b ∈ benefits.filter (·.isSupporter),
        b.discordUserId ≠ f.user.discordUserId := by
      intro b hb hbe
      apply hmem
      have hm : f.user.discordUserId ∈
          (benefits.filter (·.isSupporter)).map (·.discordUserId) :=
        List.mem_map.mpr ⟨b, hb, hbe⟩
      have hc : countUid f.user.discordUserId
          (supportersByRefreshRates (benefits.filter (·.isSupporter))) ≠ 0 := by
        rw [supportersByRefreshRates_count]
        exact fun h0 => (List.count_eq_zero.mp h0) hm
      by_contra hnm
      exact hc (List.count_eq_zero.mpr hnm)
    have hent : entitledRefreshRate benefits d f.user.discordUserId = d :=
      entitledRefreshRate_eq_default benefits d f.user.discordUserId hnosup
    simp [defaultRatePred, hf.trans hent]

theorem foldl_updateManyCount_noop {β : Type _} (p : β → UserFeed → Bool)
    (u : β → UserFeed → UserFeed) (l : List β) :
    ∀ (st : List UserFeed) (n : Nat),
      (∀ b ∈ l, ∀ f ∈ st, p b f = false) →
      l.foldl (fun acc b =>
        ((updateManyCount (p b) (u b) acc.1).1,
         acc.2 + (updateManyCount (p b) (u b) acc.1).2)) (st, n) = (st, n) := by
  induction l with
  | nil => intro st n _; rfl
  | cons b bs ih =>
    intro st n h
    rw [List.foldl_cons]
    have h1 : updateMany (p b) (u b) st = st :=
      updateMany_of_false (p b) (u b) st (h b (List.mem_cons_self _ _))
    have h2 : matchedCount (p b) st = 0 := by
      rw [matchedCount]
      exact List.countP_eq_zero.mpr
        (fun f hf => by rw [h b (List.mem_cons_self _ _) f hf]; simp)
    have hbody : ((updateManyCount (p b) (u b) ((st, n) : List UserFeed × Nat).1).1,
        ((st, n) : List UserFeed × Nat).2 +
          (updateManyCount (p b) (u b) ((st, n) : List UserFeed × Nat).1).2) =
        ((st, n) : List UserFeed × Nat) := by
      show (updateMany (p b) (u b) st, n + matchedCount (p b) st) = (st, n)
      rw [h1, h2]
      rfl
    rw [hbody]
    exact ih st n (fun b2 hb2 => h b2 (List.mem_cons.mpr (Or.inr hb2)))

/-- Any store whose rates already agree with the entitlements is matched by
none of the bulk updates of a `syncRefreshRates` pass. -/
theorem syncRefreshRatesWrites_zero_of_entitled (benefits : List UserBenefits)
    (d : Nat) (store : List UserFeed)
    (hnd : (benefits.map (·.discordUserId)).Nodup)
    (hP : ∀ f ∈ store, f.refreshRateSeconds =
      entitledRefreshRate benefits d f.user.discordUserId) :
    syncRefreshRatesWrites benefits d store = 0 := by
  have hgs : ∀ g ∈ supportersByRefreshRates (benefits.filter (·.isSupporter)),
      ∀ f ∈ store, rateGroupPred g f = false :=
    fun g hg f hf =>
      rateGroupPred_false_of_entitled benefits d hnd g hg f (hP f hf)
  have hstep := foldl_updateManyCount_noop rateGroupPred rateGroupSet
    (supportersByRefreshRates (benefits.filter (·.isSupporter))) store 0 hgs
  have hfinal : matchedCount
      (defaultRatePred
        (((supportersByRefreshRates
          (benefits.filter (·.isSupporter))).map (·.2)).flatten) d)
      store = 0 := by
    rw [matchedCount]
    exact List.countP_eq_zero.mpr
      (fun f hf => by
        rw [defaultRatePred_false_of_entitled benefits d f (hP f hf)]
        simp)
  calc syncRefreshRatesWrites benefits d store
      = ((supportersByRefreshRates (benefits.filter (·.isSupporter))).foldl
          (fun acc g =>
            ((updateManyCount (rateGroupPred g) (rateGroupSet g) acc.1).1,
             acc.2 +
               (updateManyCount (rateGroupPred g) (rateGroupSet g) acc.1).2))
          (store, 0)).2 +
        matchedCount
          (defaultRatePred
            (((supportersByRefreshRates
              (benefits.filter (·.isSupporter))).map (·.2)).flatten) d)
          (((supportersByRefreshRates (benefits.filter (·.isSupporter))).foldl
            (fun acc g =>
              ((updateManyCount (rateGroupPred g) (rateGroupSet g) acc.1).1,
               acc.2 +
                 (updateManyCount (rateGroupPred g) (rateGroupSet g) acc.1).2))
            (store, 0)).1) := Eq.refl _
    _ = ((store, 0) : List UserFeed × Nat).2 +
        matchedCount
          (defaultRatePred
            (((supportersByRefreshRates
              (benefits.filter (·.isSupporter))).map (·.2)).flatten) d)
          (((store, 0) : List UserFeed × Nat).1) := by rw [hstep]
    _ = 0 := by
        show 0 + matchedCount _ store = 0
        rw [hfinal]

/-- C4: running `syncRefreshRates` twice with the benefit set unchanged
performs zero feed-store writes on the second run — every bulk update of the
second run matches no documents. -/
theorem syncRefreshRates_second_run_zero_writes (benefits : List UserBenefits)
    (d : Nat) (store : List UserFeed)
    (hnd : (benefits.map (·.discordUserId)).Nodup) :
    syncRefreshRatesWrites benefits d (syncRefreshRates benefits d store) = 0 :=
  syncRefreshRatesWrites_zero_of_entitled benefits d
    (syncRefreshRates benefits d store) hnd
    (syncRefreshRates_rate_entitled benefits d store hnd)

/-- C4 witness: concrete second run with a supporter and a non-supporter feed. -/
theorem syncRefreshRates_second_run_zero_writes_witness :
    syncRefreshRatesWrites [⟨"u1", 300, 100, 5, true⟩] 600
      (syncRefreshRates [⟨"u1", 300, 100, 5, true⟩] 600
        [mkFeed "f1" "http://a" 600 "u1" none [] [],
         mkFeed "f2" "http://b" 60 "u2" none [] []]) = 0 :=
  syncRefreshRates_second_run_zero_writes [⟨"u1", 300, 100, 5, true⟩] 600
    [mkFeed "f1" "http://a" 600 "u1" none [] [],
     mkFeed "f2" "http://b" 60 "u2" none [] []] (by decide)

end MonitoRSS
